import Mathlib

/-!
Verification of the ORB virtual-cube core (orb/core.py, orb/cube.py).

The Python source is Python 2: integer `/` is floor division, `long(...)`
and `math.ceil` applied to an integer-division result are the identity on
the quotient.  All machine integers in the modelled code are plain Python
ints (arbitrary precision), so they are embedded as `Nat`/`Int` without
wrap-around.
-/

set_option maxHeartbeats 1000000

namespace Orb

/-! ## QuadrantPlanner: `orb.core.Cube.get_quadrant_dims`

Source (core.py, `Cube.get_quadrant_dims`):

    quad_nb = div_nb**2
    if (quad_number < 0) or (quad_number > quad_nb - 1L): error
    index_x = quad_number % div_nb
    index_y = (quad_number - index_x) / div_nb
    x_min = long(index_x * math.ceil(dimx / div_nb))
    if (index_x != div_nb - 1L):
        x_max = long((index_x + 1L) * math.ceil(dimx / div_nb))
    else:
        x_max = dimx
    ... same for y ...

In Python 2, `dimx / div_nb` is integer floor division, so
`long(math.ceil(dimx / div_nb)) = dimx // div_nb`.
-/

/-- Embedding of `orb.core.Cube.get_quadrant_dims` (explicit `div_nb`,
`dimx`, `dimy` arguments; the out-of-bounds quadrant number raises, which
is modelled by `none`). -/
def get_quadrant_dims (quad_number div_nb dimx dimy : Nat) :
    Option (Nat × Nat × Nat × Nat) :=
  let quad_nb := div_nb ^ 2
  if quad_number > quad_nb - 1 then none
  else
    let index_x := quad_number % div_nb
    let index_y := (quad_number - index_x) / div_nb
    let x_min := index_x * (dimx / div_nb)
    let x_max := if index_x ≠ div_nb - 1 then (index_x + 1) * (dimx / div_nb)
                 else dimx
    let y_min := index_y * (dimy / div_nb)
    let y_max := if index_y ≠ div_nb - 1 then (index_y + 1) * (dimy / div_nb)
                 else dimy
    some (x_min, x_max, y_min, y_max)

/-- The 1-dimensional tile lower bound used by `get_quadrant_dims`. -/
def tileLo (dim div i : Nat) : Nat := i * (dim / div)

/-- The 1-dimensional tile upper bound used by `get_quadrant_dims`. -/
def tileHi (dim div i : Nat) : Nat :=
  if i ≠ div - 1 then (i + 1) * (dim / div) else dim

/-- Membership: `(x, y)` lies in the rectangle returned by `get_quadrant_dims` for
quadrant `q` (`False` when the quadrant number is rejected). -/
def inQuadrant (q div_nb dimx dimy x y : Nat) : Prop :=
  match get_quadrant_dims q div_nb dimx dimy with
  | some (x0, x1, y0, y1) => x0 ≤ x ∧ x < x1 ∧ y0 ≤ y ∧ y < y1
  | none => False

/-- Area of the rectangle returned by `get_quadrant_dims` for quadrant `q`
(0 when the quadrant number is rejected). -/
def quadArea (q div_nb dimx dimy : Nat) : Nat :=
  match get_quadrant_dims q div_nb dimx dimy with
  | some (x0, x1, y0, y1) => (x1 - x0) * (y1 - y0)
  | none => 0

lemma get_quadrant_dims_eq (q div_nb dimx dimy : Nat) (hd : 1 ≤ div_nb)
    (hq : q < div_nb ^ 2) :
    get_quadrant_dims q div_nb dimx dimy =
      some (tileLo dimx div_nb (q % div_nb), tileHi dimx div_nb (q % div_nb),
            tileLo dimy div_nb (q / div_nb), tileHi dimy div_nb (q / div_nb)) := by
  have hnotgt : ¬ q > div_nb ^ 2 - 1 := by omega
  have hiy : (q - q % div_nb) / div_nb = q / div_nb := by
    have h := Nat.div_add_mod q div_nb
    have : q - q % div_nb = div_nb * (q / div_nb) := by omega
    rw [this, Nat.mul_div_cancel_left _ (by omega : 0 < div_nb)]
  simp only [get_quadrant_dims, hnotgt, if_false, hiy, tileLo, tileHi]

lemma mul_div_le_dim (dim div k : Nat) (hk : k ≤ div) :
    k * (dim / div) ≤ dim :=
  calc k * (dim / div) ≤ div * (dim / div) := Nat.mul_le_mul_right _ hk
    _ = dim / div * div := Nat.mul_comm _ _
    _ ≤ dim := Nat.div_mul_le_self dim div

lemma tileLo_le_tileHi (dim div i : Nat) (hd : 1 ≤ div) (hi : i < div) :
    tileLo dim div i ≤ tileHi dim div i := by
  unfold tileLo tileHi
  by_cases h : i ≠ div - 1
  · rw [if_pos h]
    exact Nat.mul_le_mul_right _ (by omega)
  · rw [if_neg h]
    push_neg at h
    subst h
    exact mul_div_le_dim dim div _ (by omega)

lemma tileHi_le_dim (dim div i : Nat) (hd : 1 ≤ div) (hi : i < div) :
    tileHi dim div i ≤ dim := by
  unfold tileHi
  by_cases h : i ≠ div - 1
  · rw [if_pos h]
    exact mul_div_le_dim dim div _ (by omega)
  · rw [if_neg h]

lemma tileHi_eq_of_lt (dim div i : Nat) (hi : i < div - 1) :
    tileHi dim div i = (i + 1) * (dim / div) := by
  unfold tileHi
  exact if_pos (by omega)

/-- The 1-D tiles partition `[0, dim)`: every `x < dim` lies in exactly one
tile. -/
lemma tile1d_exists_unique (dim div : Nat) (hdim : 1 ≤ dim) (hdiv : 1 ≤ div)
    (x : Nat) (hx : x < dim) :
    ∃! i, i < div ∧ tileLo dim div i ≤ x ∧ x < tileHi dim div i := by
  -- existence
  have hexists : ∃ i, i < div ∧ tileLo dim div i ≤ x ∧ x < tileHi dim div i := by
    by_cases hcase : x < (div - 1) * (dim / div)
    · -- x is inside a non-last tile; the step is positive here
      have hspos : 0 < dim / div := by
        rcases Nat.eq_zero_or_pos (dim / div) with h0 | h0
        · rw [h0, Nat.mul_zero] at hcase
          omega
        · exact h0
      have hlt : x / (dim / div) < div - 1 := by
        rw [Nat.div_lt_iff_lt_mul hspos]
        exact hcase
      refine ⟨x / (dim / div), by omega, ?_, ?_⟩
      · show x / (dim / div) * (dim / div) ≤ x
        exact Nat.div_mul_le_self x (dim / div)
      · rw [tileHi_eq_of_lt dim div _ hlt]
        have h1 := Nat.div_add_mod x (dim / div)
        have h2 := Nat.mod_lt x hspos
        have h3 : (x / (dim / div) + 1) * (dim / div)
            = (dim / div) * (x / (dim / div)) + (dim / div) := by ring
        omega
    · -- x lies in the last tile
      refine ⟨div - 1, by omega, ?_, ?_⟩
      · show (div - 1) * (dim / div) ≤ x
        omega
      · show x < tileHi dim div (div - 1)
        unfold tileHi
        rw [if_neg (by omega)]
        exact hx
  -- uniqueness: tiles are ordered, tileHi i ≤ tileLo j for i < j
  obtain ⟨i, hi⟩ := hexists
  refine ⟨i, hi, ?_⟩
  intro j hj
  by_contra hne
  have horder : ∀ a b : Nat, a < b → b < div → tileHi dim div a ≤ tileLo dim div b := by
    intro a b hab hbdiv
    have ha : a ≠ div - 1 := by omega
    unfold tileHi tileLo
    rw [if_pos ha]
    exact Nat.mul_le_mul_right _ (by omega)
  rcases Nat.lt_or_ge i j with h | h
  · have := horder i j h hj.1
    omega
  · have hji : j < i := by omega
    have := horder j i hji hi.1
    omega

/-- The 1-D tile widths sum to `dim` exactly (the last tile absorbs the
remainder). -/
lemma tile1d_sum (dim div : Nat) (hdiv : 1 ≤ div) :
    ∑ i in Finset.range div, (tileHi dim div i - tileLo dim div i) = dim := by
  obtain ⟨d, rfl⟩ : ∃ d, div = d + 1 := ⟨div - 1, by omega⟩
  rw [Finset.sum_range_succ]
  have hbody : ∀ i ∈ Finset.range d,
      tileHi dim (d + 1) i - tileLo dim (d + 1) i = dim / (d + 1) := by
    intro i hi
    rw [Finset.mem_range] at hi
    rw [tileHi_eq_of_lt dim (d + 1) i (by omega)]
    unfold tileLo
    have h4 : (i + 1) * (dim / (d + 1)) = i * (dim / (d + 1)) + dim / (d + 1) := by
      ring
    rw [h4]
    exact Nat.add_sub_cancel_left _ _
  rw [Finset.sum_congr rfl hbody, Finset.sum_const, Finset.card_range,
    smul_eq_mul]
  have hlast_hi : tileHi dim (d + 1) d = dim := by
    unfold tileHi
    rw [if_neg (by omega)]
  have hlast_lo : tileLo dim (d + 1) d = d * (dim / (d + 1)) := rfl
  have hle : d * (dim / (d + 1)) ≤ dim := mul_div_le_dim dim (d + 1) d (by omega)
  rw [hlast_hi, hlast_lo]
  omega

/-- Reindexing of a sum over `range (d^2)` through `q ↦ (q % d, q / d)`. -/
lemma sum_range_sq_eq (d : Nat) (F : Nat → Nat → Nat) :
    ∑ q in Finset.range (d ^ 2), F (q % d) (q / d)
      = ∑ p in Finset.range d ×ˢ Finset.range d, F p.1 p.2 := by
  rcases Nat.eq_zero_or_pos d with rfl | hd
  · simp
  have hsq : d ^ 2 = d * d := by ring
  refine Finset.sum_nbij' (fun q => (q % d, q / d)) (fun p => p.2 * d + p.1)
    ?_ ?_ ?_ ?_ ?_
  · intro q hq
    rw [Finset.mem_range, hsq] at hq
    rw [Finset.mem_product, Finset.mem_range, Finset.mem_range]
    exact ⟨Nat.mod_lt _ hd, (Nat.div_lt_iff_lt_mul hd).mpr hq⟩
  · intro p hp
    rw [Finset.mem_product, Finset.mem_range, Finset.mem_range] at hp
    rw [Finset.mem_range, hsq]
    calc p.2 * d + p.1 < p.2 * d + d := by omega
      _ = (p.2 + 1) * d := by ring
      _ ≤ d * d := Nat.mul_le_mul_right _ (by omega)
  · intro q _
    show q / d * d + q % d = q
    rw [Nat.mul_comm]
    exact Nat.div_add_mod q d
  · intro p hp
    rw [Finset.mem_product, Finset.mem_range, Finset.mem_range] at hp
    have hmod : (p.2 * d + p.1) % d = p.1 := by
      rw [Nat.add_comm, Nat.add_mul_mod_self_right, Nat.mod_eq_of_lt hp.1]
    have hdivq : (p.2 * d + p.1) / d = p.2 := by
      rw [Nat.add_comm, Nat.add_mul_div_right _ _ hd,
        Nat.div_eq_of_lt hp.1, Nat.zero_add]
    show ((p.2 * d + p.1) % d, (p.2 * d + p.1) / d) = p
    rw [hmod, hdivq]
  · intro q _
    rfl

/-- The tiling specification asserted by the claim: row-major layout, tiles
inside `[0,dimx) × [0,dimy)`, pairwise-disjoint exact cover, and areas
summing to `dimx * dimy`. -/
def quadrantTilingSpec (dimx dimy div_nb : Nat) : Prop :=
  (∀ q, q < div_nb ^ 2 →
      get_quadrant_dims q div_nb dimx dimy =
        some (tileLo dimx div_nb (q % div_nb), tileHi dimx div_nb (q % div_nb),
              tileLo dimy div_nb (q / div_nb), tileHi dimy div_nb (q / div_nb)))
  ∧ (∀ q x0 x1 y0 y1, q < div_nb ^ 2 →
      get_quadrant_dims q div_nb dimx dimy = some (x0, x1, y0, y1) →
      x0 ≤ x1 ∧ x1 ≤ dimx ∧ y0 ≤ y1 ∧ y1 ≤ dimy)
  ∧ (∀ x y, x < dimx → y < dimy →
      ∃! q, q < div_nb ^ 2 ∧ inQuadrant q div_nb dimx dimy x y)
  ∧ (∑ q in Finset.range (div_nb ^ 2), quadArea q div_nb dimx dimy
      = dimx * dimy)

lemma mod_div_lt_of_lt_sq (q d : Nat) (hd : 1 ≤ d) (hq : q < d ^ 2) :
    q % d < d ∧ q / d < d := by
  constructor
  · exact Nat.mod_lt _ hd
  · rw [Nat.div_lt_iff_lt_mul hd]
    calc q < d ^ 2 := hq
      _ = d * d := by ring

/-- C1: `get_quadrant_dims` tiles `[0,dimx)×[0,dimy)` into `div_nb²`
row-major rectangles that are pairwise disjoint, cover the frame exactly,
and whose areas sum to `dimx*dimy`. -/
theorem C1_quadrant_tiling (dimx dimy div_nb : Nat) (hx : 1 ≤ dimx)
    (hy : 1 ≤ dimy) (hd : 1 ≤ div_nb) : quadrantTilingSpec dimx dimy div_nb := by
  refine ⟨fun q hq => get_quadrant_dims_eq q div_nb dimx dimy hd hq, ?_, ?_, ?_⟩
  · -- bounds of each rectangle
    intro q x0 x1 y0 y1 hq heq
    rw [get_quadrant_dims_eq q div_nb dimx dimy hd hq] at heq
    obtain ⟨hix, hiy⟩ := mod_div_lt_of_lt_sq q div_nb hd hq
    simp only [Option.some.injEq, Prod.mk.injEq] at heq
    obtain ⟨h0, h1, h2, h3⟩ := heq
    subst h0; subst h1; subst h2; subst h3
    exact ⟨tileLo_le_tileHi dimx div_nb _ hd hix,
           tileHi_le_dim dimx div_nb _ hd hix,
           tileLo_le_tileHi dimy div_nb _ hd hiy,
           tileHi_le_dim dimy div_nb _ hd hiy⟩
  · -- exact cover with no overlap
    intro x y hxlt hylt
    obtain ⟨ix, ⟨hix, hxlo, hxhi⟩, hux⟩ :=
      tile1d_exists_unique dimx div_nb hx hd x hxlt
    obtain ⟨iy, ⟨hiy, hylo, hyhi⟩, huy⟩ :=
      tile1d_exists_unique dimy div_nb hy hd y hylt
    refine ⟨iy * div_nb + ix, ⟨?_, ?_⟩, ?_⟩
    · calc iy * div_nb + ix < iy * div_nb + div_nb := by omega
        _ = (iy + 1) * div_nb := by ring
        _ ≤ div_nb * div_nb := Nat.mul_le_mul_right _ (by omega)
        _ = div_nb ^ 2 := by ring
    · have hqlt : iy * div_nb + ix < div_nb ^ 2 := by
        calc iy * div_nb + ix < iy * div_nb + div_nb := by omega
          _ = (iy + 1) * div_nb := by ring
          _ ≤ div_nb * div_nb := Nat.mul_le_mul_right _ (by omega)
          _ = div_nb ^ 2 := by ring
      have hmod : (iy * div_nb + ix) % div_nb = ix := by
        rw [Nat.add_comm, Nat.add_mul_mod_self_right, Nat.mod_eq_of_lt hix]
      have hdivq : (iy * div_nb + ix) / div_nb = iy := by
        rw [Nat.add_comm, Nat.add_mul_div_right _ _ (by omega : 0 < div_nb),
          Nat.div_eq_of_lt hix, Nat.zero_add]
      unfold inQuadrant
      rw [get_quadrant_dims_eq _ div_nb dimx dimy hd hqlt, hmod, hdivq]
      exact ⟨hxlo, hxhi, hylo, hyhi⟩
    · intro q ⟨hqlt, hmem⟩
      unfold inQuadrant at hmem
      rw [get_quadrant_dims_eq q div_nb dimx dimy hd hqlt] at hmem
      obtain ⟨hix', hiy'⟩ := mod_div_lt_of_lt_sq q div_nb hd hqlt
      have e1 : q % div_nb = ix := hux _ ⟨hix', hmem.1, hmem.2.1⟩
      have e2 : q / div_nb = iy := huy _ ⟨hiy', hmem.2.2.1, hmem.2.2.2⟩
      have := Nat.div_add_mod q div_nb
      calc q = div_nb * (q / div_nb) + q % div_nb := by omega
        _ = div_nb * iy + ix := by rw [e1, e2]
        _ = iy * div_nb + ix := by ring
  · -- areas sum to dimx * dimy
    have hcongr : ∀ q ∈ Finset.range (div_nb ^ 2),
        quadArea q div_nb dimx dimy =
          (tileHi dimx div_nb (q % div_nb) - tileLo dimx div_nb (q % div_nb))
          * (tileHi dimy div_nb (q / div_nb)
             - tileLo dimy div_nb (q / div_nb)) := by
      intro q hq
      rw [Finset.mem_range] at hq
      unfold quadArea
      rw [get_quadrant_dims_eq q div_nb dimx dimy hd hq]
    rw [Finset.sum_congr rfl hcongr,
      sum_range_sq_eq div_nb
        (fun i j => (tileHi dimx div_nb i - tileLo dimx div_nb i)
          * (tileHi dimy div_nb j - tileLo dimy div_nb j)),
      Finset.sum_product]
    dsimp only
    rw [← Finset.sum_mul_sum, tile1d_sum dimx div_nb hd,
      tile1d_sum dimy div_nb hd]

/-- Witness for C1 at `dimx = 5`, `dimy = 3`, `div_nb = 2`. -/
theorem C1_quadrant_tiling_witness :
    1 ≤ (5 : Nat) ∧ 1 ≤ (3 : Nat) ∧ 1 ≤ (2 : Nat) ∧ quadrantTilingSpec 5 3 2 :=
  ⟨by decide, by decide, by decide,
    C1_quadrant_tiling 5 3 2 (by decide) (by decide) (by decide)⟩

/-! ## Index resolution: `Cube._get_default_slice` (core.py) and
`FDCube._get_default_slice` (cube.py)

Both take an integer or a slice object plus the axis extent `_max` and
return `slice(slice_min, slice_max, 1)`.  Only integer and `None` bounds
are modelled (the claim is about those; non-integer bounds raise a
type error in both versions). -/

/-- A Python index expression: an integer, or a slice with optional
integer start/stop. -/
inductive PyIndex where
  | int (i : Int)
  | slice (start stop : Option Int)

/-- Shared `slice_min` computation (`_slice.start` handling): identical in
`Cube._get_default_slice` and `FDCube._get_default_slice`. -/
def slice_min_of_start (start : Option Int) (mx : Int) : Except String Int :=
  match start with
  | some s =>
    if 0 ≤ s ∧ s ≤ mx then Except.ok s
    else Except.error "Index error: list index out of range"
  | none => Except.ok 0

/-- The `slice_max` computation of `orb.core.Cube._get_default_slice`: an
explicitly given `stop` must satisfy `stop >= 0 and stop <= _max and
stop > slice_min`; `None` defaults to `_max` unchecked. -/
def Cube_slice_max (stop : Option Int) (slice_min mx : Int) :
    Except String Int :=
  match stop with
  | some t =>
    if 0 ≤ t ∧ t ≤ mx ∧ slice_min < t then Except.ok t
    else Except.error "Index error: list index out of range"
  | none => Except.ok mx

/-- The `slice_max` computation of `orb.cube.FDCube._get_default_slice`: a
negative `stop` is first resolved as `_max + stop`, then the resolved stop
must satisfy `slice_stop <= _max and slice_stop > slice_min`; `None`
defaults to `_max` unchecked. -/
def FDCube_slice_max (stop : Option Int) (slice_min mx : Int) :
    Except String Int :=
  match stop with
  | some t =>
    let slice_stop := if t < 0 then mx + t else t
    if slice_stop ≤ mx ∧ slice_min < slice_stop then Except.ok slice_stop
    else Except.error "Index error: list index out of range"
  | none => Except.ok mx

/-- Embedding of `orb.core.Cube._get_default_slice`. -/
def Cube_get_default_slice (idx : PyIndex) (mx : Int) :
    Except String (Int × Int) :=
  match idx with
  | .slice start stop =>
    match slice_min_of_start start mx with
    | .error e => .error e
    | .ok smin =>
      match Cube_slice_max stop smin mx with
      | .error e => .error e
      | .ok smax => .ok (smin, smax)
  | .int i => .ok (i, i + 1)

/-- Embedding of `orb.cube.FDCube._get_default_slice`. -/
def FDCube_get_default_slice (idx : PyIndex) (mx : Int) :
    Except String (Int × Int) :=
  match idx with
  | .slice start stop =>
    match slice_min_of_start start mx with
    | .error e => .error e
    | .ok smin =>
      match FDCube_slice_max stop smin mx with
      | .error e => .error e
      | .ok smax => .ok (smin, smax)
  | .int i => .ok (i, i + 1)

/-- C2 counterexample: on axis extent 10, (a) `Cube._get_default_slice`
rejects a negative stop instead of resolving it relative to the extent;
(b) `FDCube._get_default_slice` maps the out-of-range integer index 1000
to `(1000, 1001)` without any error; (c) an omitted stop with
`start = extent` yields the empty slice `(10, 10)` (`stop <= start`)
without any error. -/
theorem C2_counterexample :
    Cube_get_default_slice (.slice (some 0) (some (-1))) 10
        = Except.error "Index error: list index out of range"
    ∧ FDCube_get_default_slice (.int 1000) 10 = Except.ok (1000, 1001)
    ∧ FDCube_get_default_slice (.slice (some 10) none) 10
        = Except.ok (10, 10) := by
  exact ⟨rfl, rfl, rfl⟩

/-- C2 (amended): integer indexes are mapped to `(i, i+1)` with no bounds
check; `start=None` defaults to 0 and `stop=None` to the extent, both
unchecked; an explicitly given start must lie in `[0, extent]`; an
explicitly given stop must satisfy `stop <= extent` and `stop > start`
after resolution, where `FDCube` resolves a negative stop as
`extent + stop` while `core.Cube` treats any negative stop as out of
range. -/
theorem C2_index_resolution (mx s t : Int) :
    (∀ i : Int, Cube_get_default_slice (.int i) mx = .ok (i, i + 1)
      ∧ FDCube_get_default_slice (.int i) mx = .ok (i, i + 1))
    ∧ (Cube_get_default_slice (.slice none none) mx = .ok (0, mx)
      ∧ FDCube_get_default_slice (.slice none none) mx = .ok (0, mx))
    ∧ (Cube_get_default_slice (.slice (some s) none) mx
        = (if 0 ≤ s ∧ s ≤ mx then .ok (s, mx)
           else .error "Index error: list index out of range")
      ∧ FDCube_get_default_slice (.slice (some s) none) mx
        = (if 0 ≤ s ∧ s ≤ mx then .ok (s, mx)
           else .error "Index error: list index out of range"))
    ∧ (Cube_get_default_slice (.slice (some s) (some t)) mx
        = (if 0 ≤ s ∧ s ≤ mx then
             (if 0 ≤ t ∧ t ≤ mx ∧ s < t then .ok (s, t)
              else .error "Index error: list index out of range")
           else .error "Index error: list index out of range"))
    ∧ (FDCube_get_default_slice (.slice (some s) (some t)) mx
        = (if 0 ≤ s ∧ s ≤ mx then
             (if (if t < 0 then mx + t else t) ≤ mx
                 ∧ s < (if t < 0 then mx + t else t) then
                .ok (s, if t < 0 then mx + t else t)
              else .error "Index error: list index out of range")
           else .error "Index error: list index out of range"))
    ∧ (Cube_get_default_slice (.slice none (some t)) mx
        = (if 0 ≤ t ∧ t ≤ mx ∧ 0 < t then .ok (0, t)
           else .error "Index error: list index out of range"))
    ∧ (FDCube_get_default_slice (.slice none (some t)) mx
        = (if (if t < 0 then mx + t else t) ≤ mx
              ∧ 0 < (if t < 0 then mx + t else t) then
             .ok (0, if t < 0 then mx + t else t)
           else .error "Index error: list index out of range")) := by
  refine ⟨fun i => ⟨rfl, rfl⟩, ⟨rfl, rfl⟩, ⟨?_, ?_⟩, ?_, ?_, ?_, ?_⟩
  · by_cases h : 0 ≤ s ∧ s ≤ mx <;>
      simp [Cube_get_default_slice, slice_min_of_start, Cube_slice_max, h]
  · by_cases h : 0 ≤ s ∧ s ≤ mx <;>
      simp [FDCube_get_default_slice, slice_min_of_start, FDCube_slice_max, h]
  · by_cases h1 : 0 ≤ s ∧ s ≤ mx
    · by_cases h2 : 0 ≤ t ∧ t ≤ mx ∧ s < t <;>
        simp [Cube_get_default_slice, slice_min_of_start, Cube_slice_max,
          h1, h2]
    · simp [Cube_get_default_slice, slice_min_of_start, h1]
  · by_cases h1 : 0 ≤ s ∧ s ≤ mx
    · by_cases h2 : (if t < 0 then mx + t else t) ≤ mx
          ∧ s < (if t < 0 then mx + t else t)
      · simp only [FDCube_get_default_slice, slice_min_of_start,
          FDCube_slice_max, if_pos h1, if_pos h2]
      · simp only [FDCube_get_default_slice, slice_min_of_start,
          FDCube_slice_max, if_pos h1, if_neg h2]
    · simp [FDCube_get_default_slice, slice_min_of_start, h1]
  · by_cases h2 : 0 ≤ t ∧ t ≤ mx ∧ 0 < t <;>
      simp [Cube_get_default_slice, slice_min_of_start, Cube_slice_max, h2]
  · by_cases h2 : (if t < 0 then mx + t else t) ≤ mx
        ∧ 0 < (if t < 0 then mx + t else t)
    · simp only [FDCube_get_default_slice, slice_min_of_start,
        FDCube_slice_max, if_pos h2]
    · simp only [FDCube_get_default_slice, slice_min_of_start,
        FDCube_slice_max, if_neg h2]

/-! ## Manifest sorting: `orb.core.Tools.sort_image_list`

Paths are modelled as `List Char`.  `re.findall("[0-9]+", path)` is the
list of maximal digit runs; `np.array(..., dtype=int)` fails on ragged
rows; `test = np.sum(file_keys == file_keys[0,:], axis=0)` counts, per
column, the files whose key equals the FIRST file's key in that column;
`np.min(test) > 1` raises the ambiguity error, else the list is sorted
(stably, as Python's `list.sort`) by the numeric key in column
`np.argmin(test)` (first index attaining the minimum). -/

/-- Whether `pat` occurs as a contiguous segment of `s` (Python's `pat in s`). -/
def containsSeg (pat s : List Char) : Bool :=
  (List.range (s.length + 1)).any (fun k => (s.drop k).take pat.length == pat)

/-- Scanner for `re.findall("[0-9]+", s)` parsed as numbers: accumulates
the current digit run (if any) and emits it when a non-digit is met. -/
def digitRunsAux : List Char → Option Nat → List Nat
  | [], none => []
  | [], some n => [n]
  | c :: rest, acc =>
    if c.isDigit then
      digitRunsAux rest (some (10 * acc.getD 0 + (c.toNat - 48)))
    else
      match acc with
      | none => digitRunsAux rest none
      | some n => n :: digitRunsAux rest none

/-- The maximal digit runs of a path, as numbers
(`re.findall("[0-9]+", path)` followed by integer conversion). -/
def digitRuns (s : List Char) : List Nat := digitRunsAux s none

/-- The `('.fits' in path) or ('.hdf5' in path)` filter condition. -/
def fits_or_hdf5 (p : List Char) : Bool :=
  containsSeg ".fits".toList p || containsSeg ".hdf5".toList p

/-- Embedding of `np.min` over a nonempty list (0 on the empty list, which the code
never reaches: it raises first). -/
def minList : List Nat → Nat
  | [] => 0
  | x :: xs => xs.foldl Nat.min x

/-- One step of Python's stable ascending sort: insert `x` after all
already-placed elements whose key is `≤ key x`. -/
def insSorted (key : List Char → Nat) (x : List Char) :
    List (List Char) → List (List Char)
  | [] => [x]
  | y :: ys => if key y ≤ key x then y :: insSorted key x ys else x :: y :: ys

/-- Python's `list.sort(key=...)`: stable ascending sort by `key`. -/
def stableSortBy (key : List Char → Nat) (l : List (List Char)) :
    List (List Char) :=
  l.foldl (fun acc x => insSorted key x acc) []

/-- Embedding of `orb.core.Tools.sort_image_list`.  Returns `ok none` for
an empty (post-filter) list (the Python function returns `None`), `error`
for the raised failures, and `ok (some sorted)` otherwise. -/
def sort_image_list (file_list : List (List Char)) (image_mode : List Char) :
    Except String (Option (List (List Char))) :=
  let fl1 := file_list.filter fits_or_hdf5
  if fl1.length = 0 then .ok none
  else
    let fl2 := if image_mode = "spiomm".toList then
        fl1.filter (fun p => !containsSeg "_bias.fits".toList p)
      else fl1
    let file_seq := (fl2.filter fits_or_hdf5).map digitRuns
    match file_seq with
    | [] => .error "index 0 is out of bounds for axis 0 with size 0"
    | r0 :: rest =>
      if (r0 :: rest).any (fun r => r.length != r0.length) then
        .error "Malformed sequence of files"
      else if r0.length = 0 then
        .error "zero-size array to reduction operation minimum which has no identity"
      else
        let test := (List.range r0.length).map
          (fun j => (r0 :: rest).countP (fun r => r.getD j 0 == r0.getD j 0))
        if 1 < minList test then
          .error "Images list cannot be safely sorted. Two images at least have the same index"
        else
          let column_index := test.indexOf (minList test)
          .ok (some (stableSortBy
            (fun x => (digitRuns x).getD column_index 0) fl2))

lemma insSorted_perm (key : List Char → Nat) (x : List Char)
    (l : List (List Char)) : (insSorted key x l).Perm (x :: l) := by
  induction l with
  | nil => exact List.Perm.refl _
  | cons y ys ih =>
    unfold insSorted
    by_cases h : key y ≤ key x
    · rw [if_pos h]
      exact (ih.cons y).trans (List.Perm.swap x y ys)
    · rw [if_neg h]

lemma insSorted_sorted (key : List Char → Nat) (x : List Char)
    (l : List (List Char)) (h : l.Pairwise (fun a b => key a ≤ key b)) :
    (insSorted key x l).Pairwise (fun a b => key a ≤ key b) := by
  induction l with
  | nil => simp [insSorted]
  | cons y ys ih =>
    rcases List.pairwise_cons.mp h with ⟨hy, hys⟩
    unfold insSorted
    by_cases hc : key y ≤ key x
    · rw [if_pos hc]
      refine List.pairwise_cons.mpr ⟨?_, ih hys⟩
      intro b hb
      have hmem : b = x ∨ b ∈ ys := by
        simpa using (insSorted_perm key x ys).mem_iff.mp hb
      rcases hmem with rfl | hbys
      · exact hc
      · exact hy b hbys
    · rw [if_neg hc]
      push_neg at hc
      refine List.pairwise_cons.mpr ⟨?_, h⟩
      intro b hb
      rcases List.mem_cons.mp hb with rfl | hbys
      · exact le_of_lt hc
      · exact le_trans (le_of_lt hc) (hy b hbys)

lemma foldl_insSorted_perm (key : List Char → Nat) (l acc : List (List Char)) :
    (l.foldl (fun a x => insSorted key x a) acc).Perm (acc ++ l) := by
  induction l generalizing acc with
  | nil => simp
  | cons x xs ih =>
    simp only [List.foldl_cons]
    exact ((ih _).trans
      ((insSorted_perm key x acc).append_right xs)).trans
      List.perm_middle.symm

lemma foldl_insSorted_sorted (key : List Char → Nat)
    (l acc : List (List Char))
    (hacc : acc.Pairwise (fun a b => key a ≤ key b)) :
    (l.foldl (fun a x => insSorted key x a) acc).Pairwise
      (fun a b => key a ≤ key b) := by
  induction l generalizing acc with
  | nil => exact hacc
  | cons x xs ih =>
    simp only [List.foldl_cons]
    exact ih _ (insSorted_sorted key x acc hacc)

lemma foldl_min_replicate (c : Nat) : ∀ k, (List.replicate k c).foldl Nat.min c = c
  | 0 => rfl
  | k + 1 => by
    rw [List.replicate_succ, List.foldl_cons]
    have hm : Nat.min c c = c := by simp [Nat.min_def]
    rw [hm]
    exact foldl_min_replicate c k

lemma minList_replicate (c n : Nat) (hn : 1 ≤ n) :
    minList (List.replicate n c) = c := by
  obtain ⟨m, rfl⟩ : ∃ m, n = m + 1 := ⟨n - 1, by omega⟩
  show minList (c :: List.replicate m c) = c
  unfold minList
  exact foldl_min_replicate c m

/-- C9 counterexample: a three-file manifest in which the second and third
files share the numeric key 7 in the only varying column (column 1) is
sorted silently instead of raising the ambiguity error — the check only
compares keys against the FIRST file's key vector. -/
theorem C9_counterexample :
    sort_image_list
        ["a1_3.fits".toList, "a1_7.fits".toList, "a1_7b.fits".toList]
        "classic".toList
      = Except.ok (some
          ["a1_3.fits".toList, "a1_7.fits".toList, "a1_7b.fits".toList])
    ∧ digitRuns "a1_3.fits".toList = [1, 3]
    ∧ digitRuns "a1_7.fits".toList = [1, 7]
    ∧ digitRuns "a1_7b.fits".toList = [1, 7] := by
  exact ⟨rfl, rfl, rfl, rfl⟩

/-- C9 (amended): the ambiguity check compares every file only against the
first file's keys, so (i) a two-file manifest whose digit-run vectors
coincide raises the ambiguity error (this covers the spec's two-file
example), while duplicates not involving the first file are silently
accepted (see the counterexample); and (ii) when the function sorts, the
sort is a stable ascending permutation by the selected numeric key. -/
theorem C9_sort_image_list_behavior
    (p q : List Char) (mode : List Char)
    (hp : fits_or_hdf5 p = true) (hq : fits_or_hdf5 q = true)
    (hmode : ¬ mode = "spiomm".toList)
    (heq : digitRuns p = digitRuns q)
    (hne : digitRuns p ≠ []) :
    sort_image_list [p, q] mode
      = .error "Images list cannot be safely sorted. Two images at least have the same index"
    ∧ (∀ (key : List Char → Nat) (l : List (List Char)),
        (stableSortBy key l).Pairwise (fun a b => key a ≤ key b)
        ∧ (stableSortBy key l).Perm l) := by
  constructor
  · have hfl1 : List.filter fits_or_hdf5 [p, q] = [p, q] := by
      simp [List.filter_cons, hp, hq]
    have hlen : ¬ (digitRuns p).length = 0 := by
      intro h0
      exact hne (List.length_eq_zero.mp h0)
    have hcnt : ∀ j : Nat,
        List.countP (fun r => r.getD j 0 == (digitRuns p).getD j 0)
          [digitRuns p, digitRuns p] = 2 := by
      intro j
      simp [List.countP_cons]
    simp only [sort_image_list, hfl1]
    rw [if_neg (by simp), if_neg hmode, hfl1]
    simp only [List.map_cons, List.map_nil, ← heq]
    rw [if_neg (by simp), if_neg hlen]
    have htest : (List.range (digitRuns p).length).map
        (fun j => List.countP (fun r => r.getD j 0 == (digitRuns p).getD j 0)
          [digitRuns p, digitRuns p])
        = List.replicate (digitRuns p).length 2 := by
      rw [List.map_congr_left (fun j _ => hcnt j)]
      simp [List.map_const']
    rw [htest, minList_replicate 2 _ (by omega), if_pos (by omega)]
  · intro key l
    refine ⟨foldl_insSorted_sorted key l [] (List.Pairwise.nil), ?_⟩
    simpa using foldl_insSorted_perm key l []

/-- Witness for C9 on a concrete two-file manifest whose files share the
numeric key vector `[1, 7]`. -/
theorem C9_sort_image_list_behavior_witness :
    fits_or_hdf5 "a1_007.fits".toList = true
    ∧ fits_or_hdf5 "b1_007.fits".toList = true
    ∧ ¬ "sitelle".toList = "spiomm".toList
    ∧ digitRuns "a1_007.fits".toList = digitRuns "b1_007.fits".toList
    ∧ digitRuns "a1_007.fits".toList ≠ []
    ∧ (sort_image_list ["a1_007.fits".toList, "b1_007.fits".toList]
          "sitelle".toList
        = .error "Images list cannot be safely sorted. Two images at least have the same index"
      ∧ (∀ (key : List Char → Nat) (l : List (List Char)),
          (stableSortBy key l).Pairwise (fun a b => key a ≤ key b)
          ∧ (stableSortBy key l).Perm l)) :=
  ⟨by decide, by decide, by decide, by decide, by decide,
    C9_sort_image_list_behavior _ _ _ (by decide) (by decide) (by decide)
      (by decide) (by decide)⟩

/-! ## ContainerCube: `orb.cube.HDFCube` and `orb.cube.RWHDFCube`

The HDF5 container file is modelled as a list of named datasets plus the
`level2` attribute.  Arrays are nested lists over an abstract element
type `α` (x-major: `vals[x][y][z]`), tagged with a numpy dtype; the
float32/float64 and complex64/complex128 conversions of the source only
retag and (for narrowing) apply the abstract rounding `rnd32`, which is
universally quantified in the theorems.  The old-format branch delegates
to `orb.old` (not under `src/`), so it is a parameter (`oldResult`). -/

/-- numpy dtype tags relevant to the source's `astype` branches. -/
inductive DType where
  | f32 | f64 | c64 | c128 | other
deriving DecidableEq

/-- A 2-D array: rows indexed by x, then y. -/
abbrev Arr2 (α : Type) := List (List α)

/-- A 3-D array: indexed by x, then y, then z. -/
abbrev Arr3 (α : Type) := List (List (List α))

/-- A dtype-tagged 2-D array. -/
structure TArr2 (α : Type) where
  dtype : DType
  vals : Arr2 α

/-- A dtype-tagged 3-D array. -/
structure TArr3 (α : Type) where
  dtype : DType
  vals : Arr3 α

/-- A named slot of the container file. -/
inductive H5DSet (α : Type) where
  | d2 (a : TArr2 α)
  | d3 (a : TArr3 α)

/-- The container file: `level2` attribute plus named datasets. -/
structure H5File (α : Type) where
  level2 : Bool
  dsets : List (String × H5DSet α)

/-- numpy basic slice of one axis: elements `[r.1, r.2)`. -/
def slice1 {β : Type} (l : List β) (r : Nat × Nat) : List β :=
  (l.drop r.1).take (r.2 - r.1)

/-- numpy basic slice of a 2-D array. -/
def slice2 {α : Type} (a : Arr2 α) (rx ry : Nat × Nat) : Arr2 α :=
  (slice1 a rx).map (fun row => slice1 row ry)

/-- numpy basic slice of a 3-D array. -/
def slice3 {α : Type} (a : Arr3 α) (rx ry rz : Nat × Nat) : Arr3 α :=
  (slice1 a rx).map (fun plane => (slice1 plane ry).map (fun col => slice1 col rz))

/-- Embedding of `_data *= mask2d`: broadcast elementwise multiplication of a 3-D slice
by a 2-D mask over the z axis. -/
def mul3_2 {α : Type} (mul : α → α → α) (a : Arr3 α) (m : Arr2 α) : Arr3 α :=
  List.zipWith (fun plane mrow =>
    List.zipWith (fun col mv => col.map (fun v => mul v mv)) plane mrow) a m

/-- Embedding of `np.squeeze` on a z-singleton 3-D slice: drop the z axis. -/
def np_squeezeZ {α : Type} [Inhabited α] (a : Arr3 α) : Arr2 α :=
  a.map (fun plane => plane.map (fun col => col.headI))

/-- Embedding of `HDFCube.protected_datasets` (class attribute, cube.py line 48). -/
def protected_datasets : List String :=
  ["data", "mask", "header", "deep_frame", "params", "axis"]

/-- Embedding of `HDFCube.has_dataset`: membership of a named slot in the file. -/
def has_dataset {α : Type} (f : H5File α) (path : String) : Bool :=
  (f.dsets.lookup path).isSome

/-- Embedding of `HDFCube.get_dataset(path, protect=True)`.  Faithful to
the source: the protection check `if path in self.protected_datasets`
does NOT consult the `protect` argument, and `'data'` is additionally
rejected before the file is opened. -/
def get_dataset {α : Type} (f : H5File α) (path : String) (protect : Bool) :
    Except String (H5DSet α) :=
  if path ∈ protected_datasets then
    .error ("dataset " ++ path ++ " is protected. please use the corresponding higher level method (something like set_" ++ path ++ " should do)")
  else if path = "data" then
    .error "to get data please use your cube as a classic 3d numpy array. e.g. arr = cube[:,:,:]."
  else
    match f.dsets.lookup path with
    | none => .error (path ++ " dataset not in the hdf5 file")
    | some d => .ok d

/-- Embedding of `HDFCube.__getitem__` with a resolved basic-slice key.
New-format path: copy the `data` slice, multiply by the (x,y)-slice of
the `mask` dataset when one is present (obtained through `get_dataset`
with its default `protect=True`), then widen float32→float64 /
complex64→complex128.  `np.squeeze` is applied by the frame-level reader
`HDFCube_get_data_frame` below and is value-preserving. -/
def HDFCube_getitem {α : Type} (mul : α → α → α)
    (oldResult : Except String (TArr3 α)) (f : H5File α)
    (kx ky kz : Nat × Nat) : Except String (TArr3 α) :=
  if f.level2 = false then oldResult
  else
    match f.dsets.lookup "data" with
    | some (.d3 dat) =>
      let d0 := slice3 dat.vals kx ky kz
      let masked : Except String (Arr3 α) :=
        if has_dataset f "mask" then
          match get_dataset f "mask" true with
          | .error e => .error e
          | .ok (.d2 m) => .ok (mul3_2 mul d0 (slice2 m.vals kx ky))
          | .ok (.d3 _) => .error "operands could not be broadcast together"
        else .ok d0
      match masked with
      | .error e => .error e
      | .ok d =>
        let dtype := if dat.dtype = DType.f32 then DType.f64
                     else if dat.dtype = DType.c64 then DType.c128
                     else dat.dtype
        .ok ⟨dtype, d⟩
    | some (.d2 _) => .error "data dataset has wrong rank"
    | none => .error "data dataset not in the hdf5 file"

/-- Embedding of `HDFCube.get_data`.  For a new-format (`level2`) cube the
return expression references the undefined name `zmin_zmax`, so the call
unconditionally raises `NameError` before any data is touched; only the
old-format branch (delegated to `orb.old`, outside `src/`) can return. -/
def HDFCube_get_data {α : Type} (oldResult : Except String (TArr3 α))
    (f : H5File α) (x_min x_max y_min y_max z_min z_max : Int) :
    Except String (TArr3 α) :=
  if f.level2 = false then oldResult
  else .error "NameError: name zmin_zmax is not defined"

/-- Embedding of `HDFCube.get_data_frame(index)` = `self[:,:,index]`:
full x/y extents (read off the `data` dataset), z key `(i, i+1)`, then
`np.squeeze` drops the singleton z axis. -/
def HDFCube_get_data_frame {α : Type} [Inhabited α] (mul : α → α → α)
    (oldResult : Except String (TArr3 α)) (f : H5File α) (i : Nat) :
    Except String (TArr2 α) :=
  match f.dsets.lookup "data" with
  | some (.d3 dat) =>
    match HDFCube_getitem mul oldResult f
        (0, dat.vals.length) (0, dat.vals.headI.length) (i, i + 1) with
    | .error e => .error e
    | .ok t => .ok ⟨t.dtype, np_squeezeZ t.vals⟩
  | _ => .error "data dataset not in the hdf5 file"

/-- The dtype narrowing of `RWHDFCube.__setitem__`: float64 input is cast
to float32 and complex128 to complex64 (via the abstract 32-bit rounding
`rnd32`) before persisting; other dtypes are stored as given. -/
def astype_narrow {α : Type} (rnd32 : α → α) (value : TArr2 α) : TArr2 α :=
  if value.dtype = DType.f64 then ⟨DType.f32, value.vals.map (fun r => r.map rnd32)⟩
  else if value.dtype = DType.c128 then ⟨DType.c64, value.vals.map (fun r => r.map rnd32)⟩
  else value

/-- Embedding of `f['data'][:,:,i] = v`: write a 2-D frame into z column `i` of the
3-D `data` array. -/
def setZColumn {α : Type} (dat : Arr3 α) (i : Nat) (v : Arr2 α) : Arr3 α :=
  List.zipWith (fun plane vrow =>
    List.zipWith (fun col vv => col.set i vv) plane vrow) dat v

/-- Embedding of `RWHDFCube.__setitem__` for a frame-aligned key
`[:, :, i]`: narrow the dtype, then store into the `data` dataset. -/
def RWHDFCube_setitem_frame {α : Type} (rnd32 : α → α) (f : H5File α)
    (i : Nat) (value : TArr2 α) : H5File α :=
  let v := astype_narrow rnd32 value
  { f with dsets := f.dsets.map (fun kv =>
      if kv.1 = "data" then
        match kv.2 with
        | .d3 dat => ("data", .d3 ⟨dat.dtype, setZColumn dat.vals i v.vals⟩)
        | d => ("data", d)
      else kv) }

/-- Write a list of frames through `__setitem__`, one per z index starting
at `i` (the claim's frame-by-frame write loop). -/
def writeFramesFrom {α : Type} (rnd32 : α → α) (f : H5File α) (i : Nat) :
    List (TArr2 α) → H5File α
  | [] => f
  | v :: rest =>
    writeFramesFrom rnd32 (RWHDFCube_setitem_frame rnd32 f i v) (i + 1) rest

/-- Write frames `0 .. vs.length-1` through `__setitem__`. -/
def writeFrames {α : Type} (rnd32 : α → α) (f : H5File α)
    (vs : List (TArr2 α)) : H5File α :=
  writeFramesFrom rnd32 f 0 vs

/-- Embedding of `RWHDFCube.set_dataset(path, data, protect)`.  Returns
the new file and a Bool flag recording whether the replaced-dataset
warning was emitted.  Faithful to the source: the protection check is
guarded by `protect`, but `'data'` is rejected unconditionally afterwards
even with `protect=False`. -/
def RWHDFCube_set_dataset {α : Type} (f : H5File α) (path : String)
    (data : H5DSet α) (protect : Bool) :
    Except String (H5File α × Bool) :=
  if protect ∧ path ∈ protected_datasets then
    .error ("dataset " ++ path ++ " is protected. please use the corresponding higher level method (something like set_" ++ path ++ " should do)")
  else if path = "data" then
    .error "to set data please use your cube as a classic 3d numpy array. e.g. cube[:,:,:] = value."
  else
    let existed := has_dataset f path
    .ok (⟨f.level2,
          (f.dsets.filter (fun kv => kv.1 != path)) ++ [(path, data)]⟩,
         existed)

/-- C3: on a modern cube carrying a `mask` dataset, `__getitem__` never
succeeds: it calls `get_dataset('mask')`, whose protection check ignores
the `protect` argument and rejects every name in `protected_datasets`,
so the read raises instead of returning a masked slice. -/
theorem C3_mask_read_raises {α : Type} (mul : α → α → α)
    (oldR : Except String (TArr3 α)) (f : H5File α) (dat : TArr3 α)
    (kx ky kz : Nat × Nat)
    (hlevel2 : f.level2 = true)
    (hdata : f.dsets.lookup "data" = some (.d3 dat))
    (hmask : has_dataset f "mask" = true) :
    HDFCube_getitem mul oldR f kx ky kz
      = .error "dataset mask is protected. please use the corresponding higher level method (something like set_mask should do)" := by
  unfold HDFCube_getitem
  rw [if_neg (by rw [hlevel2]; simp), hdata]
  have hget : get_dataset f "mask" true
      = (.error "dataset mask is protected. please use the corresponding higher level method (something like set_mask should do)"
         : Except String (H5DSet α)) := by
    unfold get_dataset
    rw [if_pos (by decide : "mask" ∈ protected_datasets)]
    exact congrArg Except.error (by decide)
  simp only [hmask, if_true, hget]

/-- Witness for C3 on a concrete 1×1×1 cube with a mask dataset. -/
theorem C3_mask_read_raises_witness :
    (⟨true, [("data", H5DSet.d3 ⟨DType.f32, [[[(1 : Nat)]]]⟩),
             ("mask", H5DSet.d2 ⟨DType.other, [[1]]⟩)]⟩ : H5File Nat).level2
        = true
    ∧ (⟨true, [("data", H5DSet.d3 ⟨DType.f32, [[[(1 : Nat)]]]⟩),
               ("mask", H5DSet.d2 ⟨DType.other, [[1]]⟩)]⟩
        : H5File Nat).dsets.lookup "data"
        = some (.d3 ⟨DType.f32, [[[1]]]⟩)
    ∧ has_dataset
        (⟨true, [("data", H5DSet.d3 ⟨DType.f32, [[[(1 : Nat)]]]⟩),
                 ("mask", H5DSet.d2 ⟨DType.other, [[1]]⟩)]⟩ : H5File Nat)
        "mask" = true
    ∧ HDFCube_getitem Nat.mul (.ok ⟨DType.f32, []⟩)
        (⟨true, [("data", H5DSet.d3 ⟨DType.f32, [[[(1 : Nat)]]]⟩),
                 ("mask", H5DSet.d2 ⟨DType.other, [[1]]⟩)]⟩ : H5File Nat)
        (0, 1) (0, 1) (0, 1)
      = .error "dataset mask is protected. please use the corresponding higher level method (something like set_mask should do)" :=
  ⟨rfl, rfl, rfl,
    C3_mask_read_raises Nat.mul (.ok ⟨DType.f32, []⟩) _ ⟨DType.f32, [[[1]]]⟩
      (0, 1) (0, 1) (0, 1) rfl rfl rfl⟩

/-- C10: for every modern (`level2`) cube, `HDFCube.get_data` always
raises (`NameError` on the undefined name `zmin_zmax`) and can never
return data, whatever the index arguments. -/
theorem C10_get_data_always_raises {α : Type}
    (oldR : Except String (TArr3 α)) (f : H5File α)
    (x_min x_max y_min y_max z_min z_max : Int)
    (hlevel2 : f.level2 = true) :
    HDFCube_get_data oldR f x_min x_max y_min y_max z_min z_max
      = .error "NameError: name zmin_zmax is not defined" := by
  unfold HDFCube_get_data
  rw [if_neg (by rw [hlevel2]; simp)]

/-- Witness for C10 on a concrete 1×1×1 cube. -/
theorem C10_get_data_always_raises_witness :
    (⟨true, [("data", H5DSet.d3 ⟨DType.f32, [[[(1 : Nat)]]]⟩)]⟩
      : H5File Nat).level2 = true
    ∧ HDFCube_get_data (.ok ⟨DType.f32, []⟩)
        (⟨true, [("data", H5DSet.d3 ⟨DType.f32, [[[(1 : Nat)]]]⟩)]⟩
          : H5File Nat) 0 1 0 1 0 1
      = .error "NameError: name zmin_zmax is not defined" :=
  ⟨rfl, C10_get_data_always_raises (.ok ⟨DType.f32, []⟩) _ 0 1 0 1 0 1 rfl⟩

/-- C8 counterexample: with protection explicitly disabled
(`protect=False`), writing the protected name `data` is still refused
(the unconditional `if path == 'data'` check raises `ValueError`), so
"with protection explicitly disabled the write is permitted" is false. -/
theorem C8_counterexample :
    RWHDFCube_set_dataset
      (⟨true, [("data", H5DSet.d3 ⟨DType.f32, [[[(1 : Nat)]]]⟩)]⟩
        : H5File Nat)
      "data" (H5DSet.d2 ⟨DType.f32, [[1]]⟩) false
      = .error "to set data please use your cube as a classic 3d numpy array. e.g. cube[:,:,:] = value." := by
  rfl

/-- C8 (amended): `set_dataset(name, data, protect=True)` raises for every
name in the protected set; with protection disabled the write succeeds
for every name except `data`, which is always refused; and a write that
replaces an existing unprotected dataset emits a warning (the returned
flag) rather than an error. -/
theorem C8_set_dataset_behavior {α : Type} (f : H5File α) (path : String)
    (d : H5DSet α) :
    (path ∈ protected_datasets →
      RWHDFCube_set_dataset f path d true
        = .error ("dataset " ++ path ++ " is protected. please use the corresponding higher level method (something like set_" ++ path ++ " should do)"))
    ∧ (¬ path = "data" →
      RWHDFCube_set_dataset f path d false
        = .ok (⟨f.level2,
                (f.dsets.filter (fun kv => kv.1 != path)) ++ [(path, d)]⟩,
               has_dataset f path))
    ∧ (¬ path ∈ protected_datasets → ¬ path = "data" →
      RWHDFCube_set_dataset f path d true
        = .ok (⟨f.level2,
                (f.dsets.filter (fun kv => kv.1 != path)) ++ [(path, d)]⟩,
               has_dataset f path))
    ∧ RWHDFCube_set_dataset f "data" d false
        = .error "to set data please use your cube as a classic 3d numpy array. e.g. cube[:,:,:] = value." := by
  refine ⟨?_, ?_, ?_, ?_⟩
  · intro hmem
    unfold RWHDFCube_set_dataset
    rw [if_pos ⟨rfl, hmem⟩]
  · intro hne
    unfold RWHDFCube_set_dataset
    rw [if_neg (by simp), if_neg hne]
  · intro hmem hne
    unfold RWHDFCube_set_dataset
    rw [if_neg (by simp [hmem]), if_neg hne]
  · unfold RWHDFCube_set_dataset
    rw [if_neg (by simp), if_pos rfl]

/-- Witness for C8 at the protected name `mask` and at `data`. -/
theorem C8_set_dataset_behavior_witness :
    ("mask" ∈ protected_datasets)
    ∧ RWHDFCube_set_dataset
        (⟨true, [("data", H5DSet.d3 ⟨DType.f32, [[[(1 : Nat)]]]⟩)]⟩
          : H5File Nat)
        "mask" (H5DSet.d2 ⟨DType.other, [[1]]⟩) true
      = .error "dataset mask is protected. please use the corresponding higher level method (something like set_mask should do)"
    ∧ RWHDFCube_set_dataset
        (⟨true, [("data", H5DSet.d3 ⟨DType.f32, [[[(1 : Nat)]]]⟩)]⟩
          : H5File Nat)
        "mask" (H5DSet.d2 ⟨DType.other, [[1]]⟩) false
      = .ok (⟨true, [("data", H5DSet.d3 ⟨DType.f32, [[[(1 : Nat)]]]⟩),
                     ("mask", H5DSet.d2 ⟨DType.other, [[1]]⟩)]⟩, false) := by
  refine ⟨by decide, ?_, ?_⟩
  · have h := (C8_set_dataset_behavior
      (⟨true, [("data", H5DSet.d3 ⟨DType.f32, [[[(1 : Nat)]]]⟩)]⟩
        : H5File Nat)
      "mask" (H5DSet.d2 ⟨DType.other, [[1]]⟩)).1 (by decide)
    exact h.trans (by rfl)
  · have h := (C8_set_dataset_behavior
      (⟨true, [("data", H5DSet.d3 ⟨DType.f32, [[[(1 : Nat)]]]⟩)]⟩
        : H5File Nat)
      "mask" (H5DSet.d2 ⟨DType.other, [[1]]⟩)).2.1 (by decide)
    exact h.trans (by rfl)

/-! ### C7: write/read round trip through the container file -/

/-- The 2-D array has `nx` rows of length `ny`. -/
def dims2Ok {α : Type} (a : Arr2 α) (nx ny : Nat) : Prop :=
  a.length = nx ∧ ∀ r ∈ a, r.length = ny

/-- The 3-D array has extents `(nx, ny, nz)`. -/
def dims3Ok {α : Type} (a : Arr3 α) (nx ny nz : Nat) : Prop :=
  a.length = nx ∧ ∀ p ∈ a, p.length = ny ∧ ∀ c ∈ p, c.length = nz

/-- The z column `i` of a 3-D array (out-of-range positions default). -/
def zColumn {α : Type} [Inhabited α] (a : Arr3 α) (i : Nat) : Arr2 α :=
  a.map (fun plane => plane.map (fun col => col.getD i default))

lemma mem_zipWith_imp {β γ δ : Type} (f : β → γ → δ) :
    ∀ (l₁ : List β) (l₂ : List γ) (x : δ), x ∈ List.zipWith f l₁ l₂ →
      ∃ b c, b ∈ l₁ ∧ c ∈ l₂ ∧ x = f b c := by
  intro l₁
  induction l₁ with
  | nil => intro l₂ x hx; simp at hx
  | cons b l ih =>
    intro l₂ x hx
    cases l₂ with
    | nil => simp at hx
    | cons c l₂ =>
      rcases List.mem_cons.mp hx with h | h
      · exact ⟨b, c, List.mem_cons_self _ _, List.mem_cons_self _ _, h⟩
      · obtain ⟨b', c', hb, hc, hx'⟩ := ih l₂ x h
        exact ⟨b', c', List.mem_cons_of_mem _ hb, List.mem_cons_of_mem _ hc, hx'⟩

lemma slice1_full {β : Type} (l : List β) (n : Nat) (h : l.length = n) :
    slice1 l (0, n) = l := by
  unfold slice1
  rw [List.drop_zero, Nat.sub_zero, ← h, List.take_length]

lemma drop_take_one_getD {β : Type} [Inhabited β] (l : List β) (i : Nat)
    (h : i < l.length) : (l.drop i).take 1 = [l.getD i default] := by
  induction l generalizing i with
  | nil => simp at h
  | cons a l ih =>
    cases i with
    | zero => rfl
    | succ k =>
      rw [List.drop_succ_cons, List.getD_cons_succ]
      exact ih k (by simpa using h)

/-- Reading back: `np.squeeze(cube[:, :, i:i+1])` is the z column `i`. -/
lemma squeeze_slice3_frame {α : Type} [Inhabited α] (a : Arr3 α)
    (nx ny nz i : Nat) (hd : dims3Ok a nx ny nz) (hi : i < nz) :
    np_squeezeZ (slice3 a (0, nx) (0, ny) (i, i + 1)) = zColumn a i := by
  obtain ⟨hlen, hrest⟩ := hd
  unfold slice3 np_squeezeZ zColumn
  rw [slice1_full a nx hlen, List.map_map]
  refine List.map_congr_left ?_
  intro plane hp
  obtain ⟨hplen, hcols⟩ := hrest plane hp
  show ((slice1 plane (0, ny)).map (fun col => slice1 col (i, i + 1))).map
      (fun col => col.headI)
    = plane.map (fun col => col.getD i default)
  rw [slice1_full plane ny hplen, List.map_map]
  refine List.map_congr_left ?_
  intro col hc
  show (slice1 col (i, i + 1)).headI = col.getD i default
  unfold slice1
  have h1 : i + 1 - i = 1 := by omega
  rw [h1, drop_take_one_getD col i (by rw [hcols col hc]; exact hi)]
  rfl

lemma row_set_getD {α : Type} [Inhabited α] (i : Nat) :
    ∀ (p : List (List α)) (r : List α),
      p.length = r.length → (∀ c ∈ p, i < c.length) →
      (List.zipWith (fun col vv => col.set i vv) p r).map
          (fun col => col.getD i default)
        = r := by
  intro p
  induction p with
  | nil =>
    intro r hlen _
    rw [List.length_nil] at hlen
    rw [(List.length_eq_zero.mp hlen.symm : r = [])]
    rfl
  | cons c p ih =>
    intro r hlen hcols
    cases r with
    | nil => simp at hlen
    | cons x r' =>
      have hc : i < c.length := hcols c (List.mem_cons_self _ _)
      show (c.set i x).getD i default ::
          (List.zipWith (fun col vv => col.set i vv) p r').map
            (fun col => col.getD i default)
        = x :: r'
      congr 1
      · rw [List.getD_eq_getElem _ _ (by rw [List.length_set]; exact hc)]
        exact List.getElem_set_self (by rw [List.length_set]; exact hc)
      · exact ih r' (by simpa using hlen)
          (fun c' hc' => hcols c' (List.mem_cons_of_mem _ hc'))

lemma set_getD_ne {α : Type} [Inhabited α] (c : List α) (x : α) (i j : Nat)
    (hne : j ≠ i) : (c.set j x).getD i default = c.getD i default := by
  by_cases h : i < c.length
  · rw [List.getD_eq_getElem _ _ (by rw [List.length_set]; exact h),
      List.getD_eq_getElem _ _ h]
    exact List.getElem_set_ne hne _
  · rw [List.getD_eq_default _ _ (by rw [List.length_set]; omega),
      List.getD_eq_default _ _ (by omega)]

lemma row_set_getD_ne {α : Type} [Inhabited α] (i j : Nat) (hne : j ≠ i) :
    ∀ (p : List (List α)) (r : List α), p.length = r.length →
      (List.zipWith (fun col vv => col.set j vv) p r).map
          (fun col => col.getD i default)
        = p.map (fun col => col.getD i default) := by
  intro p
  induction p with
  | nil => intro r _; rfl
  | cons c p ih =>
    intro r hlen
    cases r with
    | nil => simp at hlen
    | cons x r' =>
      show (c.set j x).getD i default :: _ = c.getD i default :: _
      congr 1
      · exact set_getD_ne c x i j hne
      · exact ih r' (by simpa using hlen)

/-- Reading back the column just written yields exactly the written
frame. -/
lemma zColumn_setZColumn_self {α : Type} [Inhabited α] (i : Nat) :
    ∀ (a : Arr3 α) (v : Arr2 α),
      a.length = v.length →
      (∀ p ∈ a, ∀ c ∈ p, i < c.length) →
      (∀ pr ∈ List.zip a v, pr.1.length = pr.2.length) →
      zColumn (setZColumn a i v) i = v := by
  intro a
  induction a with
  | nil =>
    intro v hlen _ _
    rw [List.length_nil] at hlen
    rw [(List.length_eq_zero.mp hlen.symm : v = [])]
    rfl
  | cons p a' ih =>
    intro v hlen hcols hrows
    cases v with
    | nil => simp at hlen
    | cons r v' =>
      show (List.zipWith (fun col vv => col.set i vv) p r).map
            (fun col => col.getD i default)
          :: zColumn (setZColumn a' i v') i
        = r :: v'
      congr 1
      · exact row_set_getD i p r
          (hrows (p, r) (List.mem_cons_self _ _))
          (hcols p (List.mem_cons_self _ _))
      · exact ih v' (by simpa using hlen)
          (fun p' hp' => hcols p' (List.mem_cons_of_mem _ hp'))
          (fun pr hpr => hrows pr (List.mem_cons_of_mem _ hpr))

/-- Writing a different column leaves column `i` unchanged. -/
lemma zColumn_setZColumn_ne {α : Type} [Inhabited α] (i j : Nat)
    (hne : j ≠ i) :
    ∀ (a : Arr3 α) (v : Arr2 α),
      (∀ pr ∈ List.zip a v, pr.1.length = pr.2.length) →
      a.length = v.length →
      zColumn (setZColumn a j v) i = zColumn a i := by
  intro a
  induction a with
  | nil => intro v _ _; rfl
  | cons p a' ih =>
    intro v hrows hlen
    cases v with
    | nil => simp at hlen
    | cons r v' =>
      show (List.zipWith (fun col vv => col.set j vv) p r).map
            (fun col => col.getD i default)
          :: zColumn (setZColumn a' j v') i
        = p.map (fun col => col.getD i default) :: zColumn a' i
      congr 1
      · exact row_set_getD_ne i j hne p r
          (hrows (p, r) (List.mem_cons_self _ _))
      · exact ih v' (fun pr hpr => hrows pr (List.mem_cons_of_mem _ hpr))
          (by simpa using hlen)

lemma zip_lengths_of_dims {α : Type} (a : Arr3 α) (v : Arr2 α)
    (nx ny nz : Nat) (ha : dims3Ok a nx ny nz) (hv : dims2Ok v nx ny) :
    ∀ pr ∈ List.zip a v, pr.1.length = pr.2.length := by
  intro pr hpr
  have h1 := List.of_mem_zip hpr
  rw [(ha.2 pr.1 h1.1).1, hv.2 pr.2 h1.2]

lemma setZColumn_dims {α : Type} (a : Arr3 α) (v : Arr2 α) (i nx ny nz : Nat)
    (ha : dims3Ok a nx ny nz) (hv : dims2Ok v nx ny) :
    dims3Ok (setZColumn a i v) nx ny nz := by
  obtain ⟨hal, har⟩ := ha
  obtain ⟨hvl, hvr⟩ := hv
  constructor
  · unfold setZColumn
    rw [List.length_zipWith, hal, hvl, Nat.min_self]
  · intro p hp
    obtain ⟨pl, r, hpl, hr, rfl⟩ := mem_zipWith_imp _ _ _ _ hp
    obtain ⟨hpll, hplc⟩ := har pl hpl
    constructor
    · rw [List.length_zipWith, hpll, hvr r hr, Nat.min_self]
    · intro c hc
      obtain ⟨c', vv, hc', _, rfl⟩ := mem_zipWith_imp _ _ _ _ hc
      rw [List.length_set]
      exact hplc c' hc'

/-- Data-level view of the frame-by-frame write loop: successive
`setZColumn` of the narrowed frames starting at z index `i`. -/
def setFramesFrom {α : Type} (rnd32 : α → α) (dat : Arr3 α) (i : Nat) :
    List (TArr2 α) → Arr3 α
  | [] => dat
  | v :: rest =>
    setFramesFrom rnd32 (setZColumn dat i (astype_narrow rnd32 v).vals)
      (i + 1) rest

lemma writeFramesFrom_single {α : Type} (rnd32 : α → α) (dt : DType) :
    ∀ (vs : List (TArr2 α)) (dat : Arr3 α) (i : Nat),
      writeFramesFrom rnd32 ⟨true, [("data", .d3 ⟨dt, dat⟩)]⟩ i vs
        = ⟨true, [("data", .d3 ⟨dt, setFramesFrom rnd32 dat i vs⟩)]⟩ := by
  intro vs
  induction vs with
  | nil => intro dat i; rfl
  | cons v rest ih =>
    intro dat i
    show writeFramesFrom rnd32
        (RWHDFCube_setitem_frame rnd32 ⟨true, [("data", .d3 ⟨dt, dat⟩)]⟩ i v)
        (i + 1) rest = _
    have hstep : RWHDFCube_setitem_frame rnd32
        ⟨true, [("data", .d3 ⟨dt, dat⟩)]⟩ i v
        = ⟨true, [("data",
            .d3 ⟨dt, setZColumn dat i (astype_narrow rnd32 v).vals⟩)]⟩ := rfl
    rw [hstep]
    exact ih _ _

lemma astype_narrow_dims {α : Type} (rnd32 : α → α) (v : TArr2 α)
    (nx ny : Nat) (h : dims2Ok v.vals nx ny) :
    dims2Ok (astype_narrow rnd32 v).vals nx ny := by
  obtain ⟨h1, h2⟩ := h
  unfold astype_narrow
  split_ifs <;>
    first
      | exact ⟨h1, h2⟩
      | · refine ⟨by rw [List.length_map]; exact h1, ?_⟩
          intro r hr
          obtain ⟨r', hr', rfl⟩ := List.mem_map.mp hr
          rw [List.length_map]
          exact h2 r' hr'

lemma setFramesFrom_dims {α : Type} (rnd32 : α → α) (nx ny nz : Nat) :
    ∀ (vs : List (TArr2 α)) (dat : Arr3 α) (i : Nat),
      dims3Ok dat nx ny nz → (∀ v ∈ vs, dims2Ok v.vals nx ny) →
      dims3Ok (setFramesFrom rnd32 dat i vs) nx ny nz := by
  intro vs
  induction vs with
  | nil => intro dat i h _; exact h
  | cons v rest ih =>
    intro dat i hdat hvs
    exact ih _ _
      (setZColumn_dims dat _ i nx ny nz hdat
        (astype_narrow_dims rnd32 v nx ny (hvs v (List.mem_cons_self _ _))))
      (fun v' hv' => hvs v' (List.mem_cons_of_mem _ hv'))

lemma setFramesFrom_zColumn_lt {α : Type} [Inhabited α] (rnd32 : α → α)
    (nx ny nz : Nat) :
    ∀ (vs : List (TArr2 α)) (dat : Arr3 α) (i0 i : Nat),
      dims3Ok dat nx ny nz → (∀ v ∈ vs, dims2Ok v.vals nx ny) →
      i < i0 →
      zColumn (setFramesFrom rnd32 dat i0 vs) i = zColumn dat i := by
  intro vs
  induction vs with
  | nil => intro dat i0 i _ _ _; rfl
  | cons v rest ih =>
    intro dat i0 i hdat hvs hlt
    have hv : dims2Ok (astype_narrow rnd32 v).vals nx ny :=
      astype_narrow_dims rnd32 v nx ny (hvs v (List.mem_cons_self _ _))
    have step := ih (setZColumn dat i0 (astype_narrow rnd32 v).vals)
      (i0 + 1) i
      (setZColumn_dims dat _ i0 nx ny nz hdat hv)
      (fun v' hv' => hvs v' (List.mem_cons_of_mem _ hv'))
      (by omega)
    show zColumn (setFramesFrom rnd32
        (setZColumn dat i0 (astype_narrow rnd32 v).vals) (i0 + 1) rest) i
      = zColumn dat i
    rw [step]
    exact zColumn_setZColumn_ne i i0 (by omega) dat _
      (zip_lengths_of_dims dat _ nx ny nz hdat hv)
      (by rw [hdat.1, hv.1])

/-- After the frame-by-frame write loop, z column `i0 + k` holds exactly
the narrowed `k`-th frame. -/
lemma setFramesFrom_zColumn {α : Type} [Inhabited α] (rnd32 : α → α)
    (nx ny nz : Nat) :
    ∀ (vs : List (TArr2 α)) (dat : Arr3 α) (i0 k : Nat),
      dims3Ok dat nx ny nz → (∀ v ∈ vs, dims2Ok v.vals nx ny) →
      k < vs.length → i0 + vs.length ≤ nz →
      zColumn (setFramesFrom rnd32 dat i0 vs) (i0 + k)
        = (astype_narrow rnd32 (vs.getD k ⟨DType.other, []⟩)).vals := by
  intro vs
  induction vs with
  | nil => intro dat i0 k _ _ hk _; simp at hk
  | cons v rest ih =>
    intro dat i0 k hdat hvs hk hbound
    have hv : dims2Ok (astype_narrow rnd32 v).vals nx ny :=
      astype_narrow_dims rnd32 v nx ny (hvs v (List.mem_cons_self _ _))
    have hdat' : dims3Ok (setZColumn dat i0 (astype_narrow rnd32 v).vals)
        nx ny nz :=
      setZColumn_dims dat _ i0 nx ny nz hdat hv
    have hvs' : ∀ v' ∈ rest, dims2Ok v'.vals nx ny :=
      fun v' hv' => hvs v' (List.mem_cons_of_mem _ hv')
    cases k with
    | zero =>
      show zColumn (setFramesFrom rnd32
          (setZColumn dat i0 (astype_narrow rnd32 v).vals) (i0 + 1) rest) i0
        = (astype_narrow rnd32 v).vals
      rw [setFramesFrom_zColumn_lt rnd32 nx ny nz rest _ (i0 + 1) i0 hdat'
          hvs' (by omega)]
      refine zColumn_setZColumn_self i0 dat _ (by rw [hdat.1, hv.1]) ?_
        (zip_lengths_of_dims dat _ nx ny nz hdat hv)
      intro p hp c hc
      rw [(hdat.2 p hp).2 c hc]
      have : 1 ≤ (v :: rest).length := by
        rw [List.length_cons]
        omega
      omega
    | succ k' =>
      show zColumn (setFramesFrom rnd32
          (setZColumn dat i0 (astype_narrow rnd32 v).vals) (i0 + 1) rest)
          (i0 + (k' + 1))
        = (astype_narrow rnd32 (rest.getD k' ⟨DType.other, []⟩)).vals
      have harith : i0 + (k' + 1) = (i0 + 1) + k' := by omega
      rw [harith]
      refine ih _ (i0 + 1) k' hdat' hvs' (by simpa using hk) ?_
      rw [List.length_cons] at hbound
      omega

/-- C7: writing a float64 cube frame-by-frame through
`RWHDFCube.__setitem__` (which narrows to float32) and reading every
frame back through `HDFCube.__getitem__` (which widens to float64)
returns exactly the 32-bit-rounded original values. -/
theorem C7_write_read_roundtrip {α : Type} [Inhabited α]
    (mul : α → α → α) (rnd32 : α → α) (oldR : Except String (TArr3 α))
    (nx ny nz : Nat) (dat0 : Arr3 α) (vs : List (TArr2 α)) (i : Nat)
    (hnx : 0 < nx)
    (hdat : dims3Ok dat0 nx ny nz)
    (hvs : ∀ v ∈ vs, v.dtype = DType.f64 ∧ dims2Ok v.vals nx ny)
    (hlen : vs.length = nz) (hi : i < nz) :
    HDFCube_get_data_frame mul oldR
        (writeFrames rnd32 ⟨true, [("data", H5DSet.d3 ⟨DType.f32, dat0⟩)]⟩ vs)
        i
      = .ok ⟨DType.f64,
          (vs.getD i ⟨DType.other, []⟩).vals.map (fun r => r.map rnd32)⟩ := by
  have hvdims : ∀ v ∈ vs, dims2Ok v.vals nx ny := fun v hv => (hvs v hv).2
  rw [writeFrames, writeFramesFrom_single]
  set datF := setFramesFrom rnd32 dat0 0 vs with hdatF
  have hdimsF : dims3Ok datF nx ny nz :=
    setFramesFrom_dims rnd32 nx ny nz vs dat0 0 hdat hvdims
  have hxF : datF.length = nx := hdimsF.1
  have hheadF : datF.headI.length = ny := by
    have hne : datF ≠ [] := by
      intro h0
      rw [h0] at hxF
      simp at hxF
      omega
    obtain ⟨p, rest, hcons⟩ := List.exists_cons_of_ne_nil hne
    have hpmem : p ∈ datF := by
      rw [hcons]
      exact List.mem_cons_self _ _
    rw [hcons]
    exact (hdimsF.2 p hpmem).1
  have hcol : zColumn datF i
      = (astype_narrow rnd32 (vs.getD i ⟨DType.other, []⟩)).vals := by
    have := setFramesFrom_zColumn rnd32 nx ny nz vs dat0 0 i hdat hvdims
      (by omega) (by omega)
    simpa using this
  have hdtype : (vs.getD i ⟨DType.other, []⟩).dtype = DType.f64 := by
    have hilen : i < vs.length := by omega
    rw [List.getD_eq_getElem _ _ hilen]
    exact (hvs _ (List.getElem_mem hilen)).1
  have hnarrow : (astype_narrow rnd32 (vs.getD i ⟨DType.other, []⟩)).vals
      = (vs.getD i ⟨DType.other, []⟩).vals.map (fun r => r.map rnd32) := by
    unfold astype_narrow
    rw [if_pos hdtype]
  have hrun : HDFCube_get_data_frame mul oldR
      (⟨true, [("data", H5DSet.d3 ⟨DType.f32, datF⟩)]⟩ : H5File α) i
      = .ok ⟨DType.f64,
          np_squeezeZ (slice3 datF (0, datF.length) (0, datF.headI.length)
            (i, i + 1))⟩ := rfl
  rw [hrun, hxF, hheadF,
    squeeze_slice3_frame datF nx ny nz i hdimsF hi, hcol, hnarrow]

/-- Witness for C7 on a concrete 1×1×2 cube and two 1×1 float64 frames,
with `rnd32` the identity. -/
theorem C7_write_read_roundtrip_witness :
    (0 < 1)
    ∧ dims3Ok [[[(0 : Nat), 0]]] 1 1 2
    ∧ (∀ v ∈ [(⟨DType.f64, [[(5 : Nat)]]⟩ : TArr2 Nat),
              ⟨DType.f64, [[7]]⟩],
        v.dtype = DType.f64 ∧ dims2Ok v.vals 1 1)
    ∧ ([(⟨DType.f64, [[(5 : Nat)]]⟩ : TArr2 Nat),
        ⟨DType.f64, [[7]]⟩].length = 2)
    ∧ (1 < 2)
    ∧ HDFCube_get_data_frame Nat.mul (.ok ⟨DType.f32, []⟩)
        (writeFrames (fun v => v)
          ⟨true, [("data", H5DSet.d3 ⟨DType.f32, [[[(0 : Nat), 0]]]⟩)]⟩
          [⟨DType.f64, [[5]]⟩, ⟨DType.f64, [[7]]⟩]) 1
      = .ok ⟨DType.f64,
          (([(⟨DType.f64, [[(5 : Nat)]]⟩ : TArr2 Nat),
             ⟨DType.f64, [[7]]⟩].getD 1 ⟨DType.other, []⟩).vals.map
            (fun r => r.map (fun v => v)))⟩ :=
  ⟨by decide, by unfold dims3Ok; decide, by unfold dims2Ok; decide,
    by decide, by decide,
    C7_write_read_roundtrip Nat.mul (fun v => v) (.ok ⟨DType.f32, []⟩)
      1 1 2 [[[0, 0]]] [⟨DType.f64, [[5]]⟩, ⟨DType.f64, [[7]]⟩] 1
      (by decide) (by unfold dims3Ok; decide) (by unfold dims2Ok; decide)
      (by decide) (by decide)⟩

/-! ## VirtualCube (frame-list backed): `orb.core.Cube`

`_get_frame_section` is stateful: it consults/updates the on-disk STORED
cache of prebinned frames, counts raw decodes (the claim's "side-effect
counting on the codec"), and resets the `_return_mask` flag on its
normal exit.  The per-mode codecs (`_read_sitelle_chip`,
`_read_spiomm_data`, plain FITS/HDF5 section reads, `_bin_image`) are
abstract functions carried by the cube record; calls go through
`decode_count`.  Exceptions are modelled as `Except.error` paired with
the state at the raise point, so the flag remains observable. -/

/-- Mutable state of a frame-list cube during reads. -/
structure VCState (α : Type) where
  stored : List (List Char × Arr2 α)
  return_mask : Bool
  decode_count : Nat

/-- A frame-list (`orb.core.Cube`) configuration.  Paths are `List Char`;
the codec readers take the `_return_mask` flag (which selects the mask
companion HDU in `read_fits`) and the frame index. -/
structure VCube (α : Type) where
  image_list : List (List Char)
  image_mode : List Char
  prebinning : Nat
  hdf5 : Bool
  mask_exists : Bool
  dimx : Nat
  dimy : Nat
  dimz : Nat
  data_dir : List Char
  read_sitelle_chip : Bool → Nat → Arr2 α
  read_spiomm : Bool → Nat → Arr2 α
  read_classic : Bool → Nat → Arr2 α
  bin_image : Arr2 α → Nat → Arr2 α

/-- Embedding of `os.path.split(p)[1]`. -/
def basename (p : List Char) : List Char :=
  (p.reverse.takeWhile (fun c => c ≠ '/')).reverse

/-- Embedding of `os.path.splitext(p)[0]` (split at the last dot). -/
def dropExt (p : List Char) : List Char :=
  if p.contains '.' then ((p.reverse.dropWhile (fun c => c ≠ '.')).drop 1).reverse
  else p

/-- The deterministic cache path of a prebinned frame:
`<data_dir>/STORED/<basename without ext>.<image_mode>.bin<b>.fits`. -/
def stored_file_path (data_dir image_path image_mode : List Char)
    (prebinning : Nat) : List Char :=
  data_dir ++ "/STORED/".toList ++ dropExt (basename image_path)
    ++ ".".toList ++ image_mode ++ ".bin".toList
    ++ (toString prebinning).toList ++ ".fits".toList

/-- The mode dispatch of `_get_frame_section` when a raw frame must be
decoded (`'sitelle'` / `'spiomm'` / plain). -/
def decode_raw {α : Type} (c : VCube α) (flag : Bool) (i : Nat) : Arr2 α :=
  if c.image_mode = "sitelle".toList then c.read_sitelle_chip flag i
  else if c.image_mode = "spiomm".toList then c.read_spiomm flag i
  else c.read_classic flag i

/-- Embedding of `orb.core.Cube._get_frame_section`.

With `prebinning > 1` (FITS only): compute the deterministic cache path;
if the cached file exists, read the binned image from it (no raw
decode); otherwise decode the raw frame with the mode's codec and bin
it; take the `(x, y)` section; persist the binned image to the cache
path (`write_fits` with `overwrite=True`, also on a cache hit) before
returning; finally reset `_return_mask`.  With `prebinning > 1` on an
HDF5 cube, raise (the flag is NOT reset on this path).  With
`prebinning ≤ 1`: read the section straight from the raw frame (one
decode, no caching) and reset the flag. -/
def get_frame_section {α : Type} (c : VCube α) (st : VCState α)
    (xs ys : Nat × Nat) (i : Nat) :
    Except String (Arr2 α) × VCState α :=
  if c.prebinning > 1 then
    if c.hdf5 then
      (.error "prebinned data is not handled for hdf5 cubes", st)
    else
      match st.stored.lookup (stored_file_path c.data_dir
          (c.image_list.getD i []) c.image_mode c.prebinning) with
      | some image =>
        (.ok (slice2 image xs ys),
         { st with
            stored := (st.stored.filter (fun kv => kv.1 ≠
                stored_file_path c.data_dir (c.image_list.getD i [])
                  c.image_mode c.prebinning))
              ++ [(stored_file_path c.data_dir (c.image_list.getD i [])
                    c.image_mode c.prebinning, image)],
            return_mask := false })
      | none =>
        (.ok (slice2 (c.bin_image (decode_raw c st.return_mask i)
            c.prebinning) xs ys),
         { st with
            stored := (st.stored.filter (fun kv => kv.1 ≠
                stored_file_path c.data_dir (c.image_list.getD i [])
                  c.image_mode c.prebinning))
              ++ [(stored_file_path c.data_dir (c.image_list.getD i [])
                    c.image_mode c.prebinning,
                  c.bin_image (decode_raw c st.return_mask i)
                    c.prebinning)],
            decode_count := st.decode_count + 1,
            return_mask := false })
  else
    (.ok (slice2 (decode_raw c st.return_mask i) xs ys),
     { st with decode_count := st.decode_count + 1, return_mask := false })

/-- Embedding of `orb.core.Cube.__getitem__` for the single-frame key
`[:, :, index]` used by `get_data_frame`: the mask-availability check,
the three `_get_default_slice` resolutions, then one
`_get_frame_section` call (the multi-frame batching loop is modelled
separately at the pure level for C6). -/
def Cube_getitem_frame {α : Type} (c : VCube α) (st : VCState α)
    (index : Int) : Except String (Arr2 α) × VCState α :=
  if st.return_mask ∧ c.mask_exists = false then
    (.error "No mask found with data, cannot return mask", st)
  else
    match Cube_get_default_slice (.slice none none) (c.dimx : Int),
          Cube_get_default_slice (.slice none none) (c.dimy : Int),
          Cube_get_default_slice (.int index) (c.dimz : Int) with
    | .ok (x0, x1), .ok (y0, y1), .ok (z0, _) =>
      get_frame_section c st (x0.toNat, x1.toNat) (y0.toNat, y1.toNat)
        z0.toNat
    | .error e, _, _ => (.error e, st)
    | _, .error e, _ => (.error e, st)
    | _, _, .error e => (.error e, st)

/-- Embedding of `orb.core.Cube.get_data_frame(index, silent, mask)`:
set `_return_mask` when `mask=True`, read `self[:, :, index]`, then
reset the flag — the reset statement executes only when the read
returns normally. -/
def Cube_get_data_frame {α : Type} (c : VCube α) (st : VCState α)
    (index : Int) (mask : Bool) :
    Except String (Arr2 α) × VCState α :=
  match Cube_getitem_frame c
      (if mask then { st with return_mask := true } else st) index with
  | (.error e, st1) => (.error e, st1)
  | (.ok d, st1) => (.ok d, { st1 with return_mask := false })

lemma lookup_filter_append {β : Type} (p : List Char) (v : β) :
    ∀ l : List (List Char × β),
      List.lookup p ((l.filter (fun kv => kv.1 ≠ p)) ++ [(p, v)]) = some v := by
  intro l
  induction l with
  | nil =>
    show List.lookup p [(p, v)] = some v
    simp [List.lookup]
  | cons kv t ih =>
    obtain ⟨k, b⟩ := kv
    by_cases h : k = p
    · have hfilter : decide ((k, b).1 ≠ p) = false := by simp [h]
      simp only [List.filter_cons, hfilter, Bool.false_eq_true, if_false]
      exact ih
    · have hfilter : decide ((k, b).1 ≠ p) = true := by simp [h]
      simp only [List.filter_cons, hfilter, if_true, List.cons_append]
      have hbeq : (p == k) = false := by
        simp only [beq_eq_false_iff_ne, ne_eq]
        exact fun he => h he.symm
      show List.lookup p ((k, b) :: (List.filter _ t ++ [(p, v)])) = some v
      rw [List.lookup_cons, hbeq]
      exact ih

/-- The prebinning-cache specification of C4 at a given cube, state, and
frame: the first request decodes the raw frame once, bins it, persists
it under the deterministic cache path, and returns its section; a second
identical request returns a bit-identical section, performs no raw
decode, and finds the cached entry. -/
def prebinCacheSpec {α : Type} (c : VCube α) (st0 : VCState α)
    (xs ys : Nat × Nat) (i : Nat) : Prop :=
  let path := stored_file_path c.data_dir (c.image_list.getD i [])
    c.image_mode c.prebinning
  let image := c.bin_image (decode_raw c st0.return_mask i) c.prebinning
  let r1 := get_frame_section c st0 xs ys i
  let r2 := get_frame_section c r1.2 xs ys i
  r1.1 = .ok (slice2 image xs ys)
  ∧ r1.2.decode_count = st0.decode_count + 1
  ∧ r1.2.stored.lookup path = some image
  ∧ r2.1 = r1.1
  ∧ r2.2.decode_count = r1.2.decode_count

/-- C4: with a prebinning factor `b > 1` on a FITS frame-list cube and a
cold cache, requesting the same frame twice yields bit-identical arrays;
the first request persists the binned frame under the deterministic
derived path before returning and the second reuses the cached file
without decoding the raw frame again. -/
theorem C4_prebinning_cache {α : Type} (c : VCube α) (st0 : VCState α)
    (xs ys : Nat × Nat) (i : Nat)
    (hb : c.prebinning > 1) (hfits : c.hdf5 = false)
    (hmiss : st0.stored.lookup
        (stored_file_path c.data_dir (c.image_list.getD i [])
          c.image_mode c.prebinning) = none) :
    prebinCacheSpec c st0 xs ys i := by
  unfold prebinCacheSpec
  have hrun1 : get_frame_section c st0 xs ys i
      = (.ok (slice2 (c.bin_image (decode_raw c st0.return_mask i)
            c.prebinning) xs ys),
         { st0 with
            stored := (st0.stored.filter (fun kv => kv.1 ≠
                stored_file_path c.data_dir (c.image_list.getD i [])
                  c.image_mode c.prebinning))
              ++ [(stored_file_path c.data_dir (c.image_list.getD i [])
                    c.image_mode c.prebinning,
                  c.bin_image (decode_raw c st0.return_mask i)
                    c.prebinning)],
            decode_count := st0.decode_count + 1,
            return_mask := false }) := by
    unfold get_frame_section
    rw [if_pos hb, if_neg (by rw [hfits]; simp), hmiss]
  rw [hrun1]
  have hhit : ({ st0 with
      stored := (st0.stored.filter (fun kv => kv.1 ≠
          stored_file_path c.data_dir (c.image_list.getD i [])
            c.image_mode c.prebinning))
        ++ [(stored_file_path c.data_dir (c.image_list.getD i [])
              c.image_mode c.prebinning,
            c.bin_image (decode_raw c st0.return_mask i) c.prebinning)],
      decode_count := st0.decode_count + 1,
      return_mask := false } : VCState α).stored.lookup
        (stored_file_path c.data_dir (c.image_list.getD i [])
          c.image_mode c.prebinning)
      = some (c.bin_image (decode_raw c st0.return_mask i) c.prebinning) :=
    lookup_filter_append _ _ _
  have hrun2 := hhit
  refine ⟨rfl, rfl, hhit, ?_, ?_⟩
  · show (get_frame_section c _ xs ys i).1 = _
    unfold get_frame_section
    rw [if_pos hb, if_neg (by rw [hfits]; simp), hhit]
  · show (get_frame_section c _ xs ys i).2.decode_count = _
    unfold get_frame_section
    rw [if_pos hb, if_neg (by rw [hfits]; simp), hhit]

/-- Witness for C4 on a concrete one-frame cube with binning 2. -/
theorem C4_prebinning_cache_witness :
    (⟨["a.fits".toList], "classic2".toList, 2, false, true, 4, 4, 1,
      "/out".toList, fun _ _ => [[2]], fun _ _ => [[3]], fun _ _ => [[5]],
      fun a _ => a⟩ : VCube Nat).prebinning > 1
    ∧ (⟨["a.fits".toList], "classic2".toList, 2, false, true, 4, 4, 1,
        "/out".toList, fun _ _ => [[2]], fun _ _ => [[3]], fun _ _ => [[5]],
        fun a _ => a⟩ : VCube Nat).hdf5 = false
    ∧ (⟨[], false, 0⟩ : VCState Nat).stored.lookup
        (stored_file_path "/out".toList "a.fits".toList "classic2".toList 2)
      = none
    ∧ prebinCacheSpec
        (⟨["a.fits".toList], "classic2".toList, 2, false, true, 4, 4, 1,
          "/out".toList, fun _ _ => [[2]], fun _ _ => [[3]], fun _ _ => [[5]],
          fun a _ => a⟩ : VCube Nat)
        ⟨[], false, 0⟩ (0, 1) (0, 1) 0 :=
  ⟨by decide, rfl, rfl,
    C4_prebinning_cache _ _ (0, 1) (0, 1) 0 (by decide) rfl rfl⟩

/-- C5 counterexample: `get_data_frame(0, mask=True)` on a cube without a
mask raises inside `__getitem__` ("No mask found with data"), and the
`_return_mask` flag is still `True` when the call terminates — the reset
statement is skipped on the exceptional path. -/
theorem C5_counterexample :
    (Cube_get_data_frame
        (⟨["a.fits".toList], "classic2".toList, 1, false, false, 1, 1, 1,
          "/out".toList, fun _ _ => [[2]], fun _ _ => [[3]], fun _ _ => [[5]],
          fun a _ => a⟩ : VCube Nat)
        ⟨[], false, 0⟩ 0 true).1
      = .error "No mask found with data, cannot return mask"
    ∧ (Cube_get_data_frame
        (⟨["a.fits".toList], "classic2".toList, 1, false, false, 1, 1, 1,
          "/out".toList, fun _ _ => [[2]], fun _ _ => [[3]], fun _ _ => [[5]],
          fun a _ => a⟩ : VCube Nat)
        ⟨[], false, 0⟩ 0 true).2.return_mask = true :=
  ⟨rfl, rfl⟩

/-- C5 (amended): the `_return_mask` flag is `False` again whenever
`get_data_frame` or `_get_frame_section` returns normally; on an
exceptional exit the flag can remain set (see the counterexample). -/
theorem C5_mask_flag_reset {α : Type} (c : VCube α) (st : VCState α)
    (index : Int) (mask : Bool) (xs ys : Nat × Nat) (i : Nat) :
    (∀ d st', Cube_get_data_frame c st index mask = (.ok d, st') →
      st'.return_mask = false)
    ∧ (∀ d st', get_frame_section c st xs ys i = (.ok d, st') →
      st'.return_mask = false) := by
  constructor
  · intro d st' h
    unfold Cube_get_data_frame at h
    rcases hcall : Cube_getitem_frame c
        (if mask then { st with return_mask := true } else st) index with
      ⟨res, st1⟩
    rw [hcall] at h
    cases res with
    | error e => exact absurd h (by simp)
    | ok dd =>
      rw [Prod.mk.injEq] at h
      rw [← h.2]
  · intro d st' h
    unfold get_frame_section at h
    split_ifs at h
    · exact absurd h (by simp)
    · rcases hlook : ((st.stored.lookup (stored_file_path c.data_dir
          (c.image_list.getD i []) c.image_mode c.prebinning))) with _ | im <;>
        rw [hlook] at h <;> dsimp only at h <;>
        rw [Prod.mk.injEq] at h <;> rw [← h.2]
    · rw [Prod.mk.injEq] at h
      rw [← h.2]

/-- Witness for C5 on a concrete successful read with `mask=False`. -/
theorem C5_mask_flag_reset_witness :
    Cube_get_data_frame
        (⟨["a.fits".toList], "classic2".toList, 1, false, false, 1, 1, 1,
          "/out".toList, fun _ _ => [[2]], fun _ _ => [[3]], fun _ _ => [[5]],
          fun a _ => a⟩ : VCube Nat)
        ⟨[], false, 0⟩ 0 false
      = (.ok [[5]], ⟨[], false, 1⟩)
    ∧ (⟨[], false, 1⟩ : VCState Nat).return_mask = false :=
  ⟨rfl,
    (C5_mask_flag_reset
      (⟨["a.fits".toList], "classic2".toList, 1, false, false, 1, 1, 1,
        "/out".toList, fun _ _ => [[2]], fun _ _ => [[3]], fun _ _ => [[5]],
        fun a _ => a⟩ : VCube Nat)
      ⟨[], false, 0⟩ 0 false (0, 1) (0, 1) 0).1 [[5]] ⟨[], false, 1⟩ rfl⟩

/-! ## C6: the multi-frame parallel read loop of `Cube.__getitem__`

The loop is

    for ik in range(z_slice.start + 1, z_slice.stop, ncpus):
        if (ik + ncpus >= z_slice.stop):
            ncpus = z_slice.stop - ik
        jobs = [(ijob, submit(_get_frame_section, (x, y, ik + ijob)))
                for ijob in range(ncpus)]
        for ijob, job in jobs: added_data[:,:,ijob] = job()
        data = np.dstack((data, added_data))

Python 2's `range` materializes its index list up front with the
original `ncpus` as step, while the in-loop mutation shrinks the batch
width; results are collected into `added_data` by submission slot
`ijob`, making assembly independent of worker completion order. -/

/-- Python 2 `range(a, b, s)` for a positive step (`[]` otherwise). -/
def pyRange (a b s : Nat) : List Nat :=
  if h : a < b ∧ 0 < s then a :: pyRange (a + s) b s else []
termination_by b - a
decreasing_by omega

/-- The batch lists produced by the loop: one list of frame indices per
iteration, with the in-loop `ncpus` mutation threaded through. -/
def batchedIndices (stop : Nat) : List Nat → Nat → List (List Nat)
  | [], _ => []
  | ik :: rest, ncpus =>
    ((List.range (if stop ≤ ik + ncpus then stop - ik else ncpus)).map
        (fun j => ik + j))
      :: batchedIndices stop rest (if stop ≤ ik + ncpus then stop - ik
          else ncpus)

/-- Sequential frame-by-frame read of `z0 .. z1-1` (the claim's
reference semantics, and the source's non-parallel branch). -/
def seqFrames {α : Type} (frame : Nat → Arr2 α) (z0 z1 : Nat) :
    List (Arr2 α) :=
  (List.range' z0 (z1 - z0)).map frame

/-- Parallel read: the first frame is read directly, then each batch's
jobs are collected in submission order and stacked along z. -/
def parFrames {α : Type} (frame : Nat → Arr2 α) (z0 z1 ncpus : Nat) :
    List (Arr2 α) :=
  frame z0 ::
    ((batchedIndices z1 (pyRange (z0 + 1) z1 ncpus) ncpus).map
      (fun batch => batch.map frame)).flatten

/-- Reassembly of one batch from its completed jobs: slot `ijob` of
`added_data` receives the result of the job submitted with tag `ijob`,
whatever the order of the `completed` list. -/
def collectJobs {α : Type} (completed : List (Nat × Arr2 α)) (ncpus : Nat) :
    List (Option (Arr2 α)) :=
  (List.range ncpus).map
    (fun ij => (completed.find? (fun pr => pr.1 == ij)).map Prod.snd)

lemma pyRange_cons (a b s : Nat) (hs : 0 < s) (hab : a < b) :
    pyRange a b s = a :: pyRange (a + s) b s := by
  rw [pyRange]
  exact dif_pos ⟨hab, hs⟩

lemma pyRange_nil (a b s : Nat) (h : ¬ (a < b ∧ 0 < s)) :
    pyRange a b s = [] := by
  rw [pyRange]
  exact dif_neg h

lemma pyRange_mem_lt (b s : Nat) :
    ∀ (m a : Nat), b - a ≤ m → ∀ x ∈ pyRange a b s, x < b := by
  intro m
  induction m with
  | zero =>
    intro a hm x hx
    rw [pyRange_nil a b s (by omega)] at hx
    simp at hx
  | succ m ih =>
    intro a hm x hx
    by_cases hc : a < b ∧ 0 < s
    · rw [pyRange_cons a b s hc.2 hc.1] at hx
      rcases List.mem_cons.mp hx with rfl | hx'
      · exact hc.1
      · exact ih (a + s) (by omega) x hx'
    · rw [pyRange_nil a b s hc] at hx
      simp at hx

lemma batchedIndices_sizes (stop s : Nat) :
    ∀ (l : List Nat), (∀ x ∈ l, x < stop) →
      ∀ ncpus, 1 ≤ ncpus → ncpus ≤ s →
      ∀ b ∈ batchedIndices stop l ncpus, b.length ≤ s ∧ b ≠ [] := by
  intro l
  induction l with
  | nil => intro _ ncpus _ _ b hb; simp [batchedIndices] at hb
  | cons ik rest ih =>
    intro hlt ncpus h1 hs b hb
    have hik : ik < stop := hlt ik (List.mem_cons_self _ _)
    have hn2a : 1 ≤ (if stop ≤ ik + ncpus then stop - ik else ncpus) := by
      split_ifs <;> omega
    have hn2b : (if stop ≤ ik + ncpus then stop - ik else ncpus) ≤ s := by
      split_ifs with h <;> omega
    rcases List.mem_cons.mp hb with rfl | hb'
    · constructor
      · rw [List.length_map, List.length_range]
        exact hn2b
      · intro hempty
        have := congrArg List.length hempty
        rw [List.length_map, List.length_range] at this
        simp at this
        omega
    · exact ih (fun x hx => hlt x (List.mem_cons_of_mem _ hx)) _ hn2a hn2b
        b hb'

lemma range_map_add (a k : Nat) :
    (List.range k).map (fun j => a + j) = List.range' a k := by
  rw [List.range'_eq_map_range]

/-- The parallel loop dispatches exactly the frames `a .. stop-1`, in
order. -/
lemma batchedIndices_join (stop s : Nat) (hs : 1 ≤ s) :
    ∀ (m a : Nat), stop - a ≤ m → a ≤ stop →
      (batchedIndices stop (pyRange a stop s) s).flatten
        = List.range' a (stop - a) := by
  intro m
  induction m with
  | zero =>
    intro a hm ha
    have ha' : a = stop := by omega
    subst ha'
    rw [pyRange_nil _ _ _ (by omega)]
    simp [batchedIndices]
  | succ m ih =>
    intro a hm ha
    by_cases hab : a < stop
    · rw [pyRange_cons a stop s hs hab]
      simp only [batchedIndices]
      by_cases hcase : stop ≤ a + s
      · rw [if_pos hcase, pyRange_nil (a + s) stop s (by omega)]
        simp only [batchedIndices, List.flatten_cons, List.flatten_nil,
          List.append_nil, range_map_add]
      · rw [if_neg hcase, List.flatten_cons, range_map_add,
          ih (a + s) (by omega) (by omega)]
        have h2 := List.range'_append a s (stop - (a + s)) 1
        simp only [Nat.one_mul, Nat.mul_one] at h2
        rw [h2]
        congr 1
        omega
    · have ha' : a = stop := by omega
      subst ha'
      rw [pyRange_nil _ _ _ (by omega)]
      simp [batchedIndices]

/-- The parallel-read specification of C6: frames `z0+1 .. z1-1` are
dispatched in order, in nonempty batches of at most the worker count;
the parallel result equals the sequential read; and per-batch
reassembly by submission slot is invariant under completion order. -/
def parallelReadSpec {α : Type} (frame : Nat → Arr2 α)
    (z0 z1 n : Nat) : Prop :=
  (batchedIndices z1 (pyRange (z0 + 1) z1 n) n).flatten
      = List.range' (z0 + 1) (z1 - (z0 + 1))
  ∧ (∀ b ∈ batchedIndices z1 (pyRange (z0 + 1) z1 n) n,
      b.length ≤ n ∧ b ≠ [])
  ∧ parFrames frame z0 z1 n = seqFrames frame z0 z1
  ∧ (∀ (m : Nat) (g : Nat → Arr2 α) (completed : List (Nat × Arr2 α)),
      completed.Perm ((List.range m).map (fun ij => (ij, g ij))) →
      collectJobs completed m
        = (List.range m).map (fun ij => some (g ij)))

/-- C6: the parallel multi-frame read dispatches frames
`z0+1 .. z1-1` in batches of at most the worker count, and reassembles
them in the request's natural order — the result equals the sequential
frame-by-frame read; per batch, the slot-indexed collection is invariant
under any permutation of job completions. -/
theorem C6_parallel_read_order {α : Type} (frame : Nat → Arr2 α)
    (z0 z1 n : Nat) (hn : 1 ≤ n) (hz : z0 + 1 < z1) :
    parallelReadSpec frame z0 z1 n := by
  unfold parallelReadSpec
  have hjoin := batchedIndices_join z1 n hn (z1 - (z0 + 1)) (z0 + 1)
    (by omega) (by omega)
  refine ⟨hjoin, ?_, ?_, ?_⟩
  · exact batchedIndices_sizes z1 n _
      (pyRange_mem_lt z1 n (z1 - (z0 + 1)) (z0 + 1) (by omega)) n
      (by omega) (by omega)
  · unfold parFrames seqFrames
    rw [← List.map_flatten, hjoin]
    have hcount : z1 - z0 = (z1 - (z0 + 1)) + 1 := by omega
    have hr : List.range' z0 ((z1 - (z0 + 1)) + 1)
        = z0 :: List.range' (z0 + 1) (z1 - (z0 + 1)) := by
      rw [List.range'_succ]
    rw [hcount, hr, List.map_cons]
  · intro m g completed hperm
    unfold collectJobs
    refine List.map_congr_left ?_
    intro ij hij
    rw [List.mem_range] at hij
    have hmem : (ij, g ij) ∈ completed := by
      refine hperm.mem_iff.mpr ?_
      exact List.mem_map.mpr ⟨ij, List.mem_range.mpr hij, rfl⟩
    have hsome : (completed.find? (fun pr => pr.1 == ij)).isSome := by
      rw [List.find?_isSome]
      exact ⟨(ij, g ij), hmem, by simp⟩
    obtain ⟨pr, hfind⟩ := Option.isSome_iff_exists.mp hsome
    have hkey : pr.1 = ij := by
      have := List.find?_some hfind
      simpa using this
    have hprmem : pr ∈ completed := List.mem_of_find?_eq_some hfind
    have hprcanon : pr ∈ (List.range m).map (fun ij => (ij, g ij)) :=
      hperm.mem_iff.mp hprmem
    obtain ⟨i, _, hpr⟩ := List.mem_map.mp hprcanon
    have hpreq : pr = (ij, g ij) := by
      rw [← hpr] at hkey ⊢
      simp only at hkey
      rw [hkey]
    rw [hfind, hpreq]
    rfl

/-- Witness for C6 with 2 workers and the read `z = 0 .. 4`. -/
theorem C6_parallel_read_order_witness :
    1 ≤ 2 ∧ 0 + 1 < 5
    ∧ parallelReadSpec (fun i => [[(i : Nat)]]) 0 5 2 :=
  ⟨by decide, by decide,
    C6_parallel_read_order (fun i => [[(i : Nat)]]) 0 5 2 (by decide)
      (by decide)⟩

end Orb
